import Mathlib

/-!
# VMTree (ubco-db/vmtree): shallow embedding and verification

This file embeds the core data structures and operations of the VMTree
B+-tree engine (`vmtree.c` / `dbbuffer.c`, reproduced inside
`src/src/memStorage.h` of the snapshot) in Lean 4 and proves or refutes
the specification claims about them.

Conventions of the embedding:
* C machine integers (`id_t = uint32_t`, `count_t = uint16_t`, `int16_t`
  loop counters) are modelled as `Nat` / `Int`; where a C conversion or
  wraparound matters it is written explicitly with `% 2 ^ 32`.
* Byte-level page layouts are modelled by typed records: the parallel
  key/data (or key/pointer) arrays of a node become lists of records,
  and the two per-slot bitmaps of overwrite-mode pages become `Bool`
  fields per slot.  `memcpy`/`memmove` block moves become the
  corresponding list operations on whole records (key and data regions
  are always moved with the same index pattern in the source).
* Keys are the `uint32` values obtained by `uint32Compare`'s `memcpy`
  decode; comparison results `< 0 / = 0 / > 0` become `Nat` comparisons.
* The header `vmtree.h` is not part of the snapshot (only `vmtree.c`,
  `dbbuffer.c/h` and friends are).  The few constants taken from it
  (`EMPTY_MAPPING`, `PREV_ID_CONSTANT`) are modelled from the spec,
  which fixes both sentinels to `2 ^ 32 - 1`; this is noted at each
  definition.
-/

namespace VMTree

/-- Modelled from the spec: `EMPTY_MAPPING` is declared in `vmtree.h`,
which is missing from the snapshot.  Spec §6 (Sentinels): "Mapping
`prev == 2^32 − 1` marks an empty slot." -/
def EMPTY_MAPPING : Nat := 2 ^ 32 - 1

/-- Modelled from the spec: `PREV_ID_CONSTANT` is declared in `vmtree.h`,
which is missing from the snapshot.  Spec §6 (Sentinels): "`prevId ==
2^32 − 1` means 'no previous incarnation'." -/
def PREV_ID_CONSTANT : Nat := 2 ^ 32 - 1

/-! ## Mapping table (`vmtreeGetMappingIndex`, `vmtreeAddMapping`,
`vmtreeDeleteMapping`, `vmtreeGetMapping`)

The table is the `vmtreemapping` array of `state->mappingBuffer`:
`maxMappings` slots, each `(prevPage, currPage)`, probed from
`pageId % maxMappings` with stride 7 and at most `maxTries` probes.
The C `while (1) { ...; i++; if (i >= maxTries) break; loc += 7; ... }`
loops of `vmtreeGetMappingIndex` and `vmtreeAddMapping` probe
`max maxTries 1` slots (one probe happens before the first bound
check); `vmtreeDeleteMapping`'s `for (i=0; i < maxTries; i++)` probes
exactly `maxTries` slots. -/

structure MappingState where
  /-- the `vmtreemapping` array: `(prevPage, currPage)` per slot -/
  slots : List (Nat × Nat)
  /-- `state->maxMappings` -/
  maxMappings : Nat
  /-- `state->maxTries` -/
  maxTries : Nat
  /-- `state->numMappings` -/
  numMappings : Nat
  deriving Repr, DecidableEq

/-- `mappings[loc]` -/
def MappingState.slotAt (st : MappingState) (loc : Nat) : Nat × Nat :=
  st.slots.getD loc (EMPTY_MAPPING, 0)

/-- Probe loop of `vmtreeGetMappingIndex`; `tries` is the number of
probes remaining, `loc` the current slot. -/
def getMappingIndexLoop (st : MappingState) (pageId : Nat) :
    Nat → Nat → Option Nat
  | 0, _ => none
  | tries + 1, loc =>
    if (st.slotAt loc).1 = pageId then some loc
    else getMappingIndexLoop st pageId tries ((loc + 7) % st.maxMappings)

/-- `vmtreeGetMappingIndex`: returns the slot index holding `pageId` as
`prevPage`, or `none` (C: `-1`).  Returns immediately when
`numMappings == 0`. -/
def vmtreeGetMappingIndex (st : MappingState) (pageId : Nat) : Option Nat :=
  if st.numMappings = 0 then none
  else getMappingIndexLoop st pageId (max st.maxTries 1) (pageId % st.maxMappings)

/-- Probe loop of `vmtreeAddMapping`.  `some st'` is C's return 0
(success), `none` is C's return `-1` (no space in the probe chain). -/
def addMappingLoop (st : MappingState) (prevPage currPage : Nat) :
    Nat → Nat → Option MappingState
  | 0, _ => none
  | tries + 1, loc =>
    if (st.slotAt loc).1 = prevPage then
      some { st with slots := st.slots.set loc (prevPage, currPage) }
    else if (st.slotAt loc).1 = EMPTY_MAPPING then
      some { st with slots := st.slots.set loc (prevPage, currPage),
                     numMappings := st.numMappings + 1 }
    else addMappingLoop st prevPage currPage tries ((loc + 7) % st.maxMappings)

/-- `vmtreeAddMapping` -/
def vmtreeAddMapping (st : MappingState) (prevPage currPage : Nat) :
    Option MappingState :=
  addMappingLoop st prevPage currPage (max st.maxTries 1) (prevPage % st.maxMappings)

/-- Probe loop of `vmtreeDeleteMapping`.  The C code clears only the
`prevPage` field of the matching slot and decrements `numMappings`. -/
def deleteMappingLoop (st : MappingState) (prevPage : Nat) :
    Nat → Nat → MappingState
  | 0, _ => st
  | tries + 1, loc =>
    if (st.slotAt loc).1 = prevPage then
      { st with slots := st.slots.set loc (EMPTY_MAPPING, (st.slotAt loc).2),
                numMappings := st.numMappings - 1 }
    else deleteMappingLoop st prevPage tries ((loc + 7) % st.maxMappings)

/-- `vmtreeDeleteMapping`: always returns (C: always `0`). -/
def vmtreeDeleteMapping (st : MappingState) (prevPage : Nat) : MappingState :=
  if st.numMappings = 0 then st
  else deleteMappingLoop st prevPage st.maxTries (prevPage % st.maxMappings)

/-- `vmtreeGetMapping`: resolves `pageId` through the table, returning
`pageId` itself when there is no mapping. -/
def vmtreeGetMapping (st : MappingState) (pageId : Nat) : Nat :=
  match vmtreeGetMappingIndex st pageId with
  | some idx => (st.slotAt idx).2
  | none => pageId

/-- The sequence of slot indices probed for `pageId`: start at
`pageId % maxMappings`, stride 7 (mod `maxMappings`), `n` probes. -/
def probeLocs (st : MappingState) (pageId : Nat) (n : Nat) : List Nat :=
  (List.range n).map fun i => (pageId % st.maxMappings + 7 * i) % st.maxMappings

/-- Well-formedness of the mapping table as maintained by
`vmtreeInit`/add/delete: the slot array has `maxMappings` entries,
`maxMappings > 0`, and `numMappings` counts the non-empty slots. -/
def MappingWF (st : MappingState) : Prop :=
  st.slots.length = st.maxMappings ∧ 0 < st.maxMappings ∧
    st.numMappings = (st.slots.filter fun s => s.1 ≠ EMPTY_MAPPING).length

/-- The table holds `p` as a `prevPage` in at most one slot. -/
def AtMostOnePrev (st : MappingState) (p : Nat) : Prop :=
  ∀ i j, (st.slotAt i).1 = p → (st.slotAt j).1 = p → i = j

lemma probe_shift (M loc i : Nat) :
    ((loc + 7) % M + 7 * i) % M = (loc + 7 * (i + 1)) % M := by
  rw [Nat.mod_add_mod]
  ring_nf

lemma slotAt_default {st : MappingState} {loc : Nat}
    (h : st.slots.length ≤ loc) : st.slotAt loc = (EMPTY_MAPPING, 0) := by
  simp [MappingState.slotAt, List.getD, List.getElem?_eq_none h]

lemma mem_probeLocs {st : MappingState} {p n : Nat} {loc : Nat} :
    loc ∈ probeLocs st p n ↔
      ∃ i < n, loc = (p % st.maxMappings + 7 * i) % st.maxMappings := by
  simp [probeLocs, eq_comm]

lemma getLoop_none (st : MappingState) (p : Nat) :
    ∀ (n : Nat) (loc : Nat), loc % st.maxMappings = loc →
      (∀ i < n, (st.slotAt ((loc + 7 * i) % st.maxMappings)).1 ≠ p) →
      getMappingIndexLoop st p n loc = none := by
  intro n
  induction n with
  | zero => intro loc _ _; rfl
  | succ m ih =>
    intro loc hloc h
    have h0 := h 0 (Nat.succ_pos m)
    simp only [Nat.mul_zero, Nat.add_zero, hloc] at h0
    simp only [getMappingIndexLoop, if_neg h0]
    refine ih ((loc + 7) % st.maxMappings) (Nat.mod_mod_of_dvd _ dvd_rfl) ?_
    intro i hi
    rw [probe_shift]
    exact h (i + 1) (Nat.succ_lt_succ hi)

lemma getLoop_some (st : MappingState) (p : Nat) :
    ∀ (n : Nat) (loc : Nat), loc % st.maxMappings = loc →
      ∀ idx, getMappingIndexLoop st p n loc = some idx →
        (st.slotAt idx).1 = p ∧
        ∃ i < n, idx = (loc + 7 * i) % st.maxMappings := by
  intro n
  induction n with
  | zero => intro loc _ idx h; exact absurd h (by simp [getMappingIndexLoop])
  | succ m ih =>
    intro loc hloc idx h
    by_cases h0 : (st.slotAt loc).1 = p
    · simp only [getMappingIndexLoop, if_pos h0, Option.some.injEq] at h
      subst h
      exact ⟨h0, 0, Nat.succ_pos m, by simpa using hloc.symm⟩
    · simp only [getMappingIndexLoop, if_neg h0] at h
      obtain ⟨hp, i, hi, hidx⟩ :=
        ih ((loc + 7) % st.maxMappings) (Nat.mod_mod_of_dvd _ dvd_rfl) idx h
      refine ⟨hp, i + 1, Nat.succ_lt_succ hi, ?_⟩
      rw [← probe_shift]
      exact hidx

lemma addLoop_none_iff (st : MappingState) (p c : Nat) :
    ∀ (n : Nat) (loc : Nat), loc % st.maxMappings = loc →
      (addMappingLoop st p c n loc = none ↔
        ∀ i < n, (st.slotAt ((loc + 7 * i) % st.maxMappings)).1 ≠ p ∧
                 (st.slotAt ((loc + 7 * i) % st.maxMappings)).1 ≠ EMPTY_MAPPING) := by
  intro n
  induction n with
  | zero => intro loc _; simp [addMappingLoop]
  | succ m ih =>
    intro loc hloc
    by_cases h0 : (st.slotAt loc).1 = p
    · simp only [addMappingLoop, if_pos h0]
      constructor
      · intro h; exact absurd h (by simp)
      · intro h
        exact absurd h0 (by simpa [hloc] using (h 0 (Nat.succ_pos m)).1)
    · by_cases h1 : (st.slotAt loc).1 = EMPTY_MAPPING
      · simp only [addMappingLoop, if_neg h0, if_pos h1]
        constructor
        · intro h; exact absurd h (by simp)
        · intro h
          exact absurd h1 (by simpa [hloc] using (h 0 (Nat.succ_pos m)).2
          )
      · simp only [addMappingLoop, if_neg h0, if_neg h1]
        rw [ih ((loc + 7) % st.maxMappings) (Nat.mod_mod_of_dvd _ dvd_rfl)]
        constructor
        · intro h i hi
          match i with
          | 0 => simpa [hloc] using And.intro h0 h1
          | j + 1 =>
            have := h j (Nat.lt_of_succ_lt_succ hi)
            rwa [probe_shift] at this
        · intro h i hi
          rw [probe_shift]
          exact h (i + 1) (Nat.succ_lt_succ hi)

lemma addLoop_some (st : MappingState) (p c : Nat) :
    ∀ (n : Nat) (loc : Nat), loc % st.maxMappings = loc →
      ∀ st', addMappingLoop st p c n loc = some st' →
        ∃ i < n,
          (∀ j < i, (st.slotAt ((loc + 7 * j) % st.maxMappings)).1 ≠ p ∧
                    (st.slotAt ((loc + 7 * j) % st.maxMappings)).1 ≠ EMPTY_MAPPING) ∧
          st'.slots = st.slots.set ((loc + 7 * i) % st.maxMappings) (p, c) ∧
          st'.maxMappings = st.maxMappings ∧ st'.maxTries = st.maxTries ∧
          (((st.slotAt ((loc + 7 * i) % st.maxMappings)).1 = p ∧
              st'.numMappings = st.numMappings) ∨
           ((st.slotAt ((loc + 7 * i) % st.maxMappings)).1 = EMPTY_MAPPING ∧
              st'.numMappings = st.numMappings + 1)) := by
  intro n
  induction n with
  | zero => intro loc _ st' h; exact absurd h (by simp [addMappingLoop])
  | succ m ih =>
    intro loc hloc st' h
    have hl : (loc + 7 * 0) % st.maxMappings = loc := by simpa using hloc
    by_cases h0 : (st.slotAt loc).1 = p
    · simp only [addMappingLoop, if_pos h0, Option.some.injEq] at h
      subst h
      refine ⟨0, Nat.succ_pos m, fun j hj => absurd hj (Nat.not_lt_zero j),
        ?_, rfl, rfl, ?_⟩
      · rw [hl]
      · rw [hl]; exact Or.inl ⟨h0, rfl⟩
    · by_cases h1 : (st.slotAt loc).1 = EMPTY_MAPPING
      · simp only [addMappingLoop, if_neg h0, if_pos h1, Option.some.injEq] at h
        subst h
        refine ⟨0, Nat.succ_pos m, fun j hj => absurd hj (Nat.not_lt_zero j),
          ?_, rfl, rfl, ?_⟩
        · rw [hl]
        · rw [hl]; exact Or.inr ⟨h1, rfl⟩
      · simp only [addMappingLoop, if_neg h0, if_neg h1] at h
        obtain ⟨i, hi, hmiss, hrest⟩ :=
          ih ((loc + 7) % st.maxMappings) (Nat.mod_mod_of_dvd _ dvd_rfl) st' h
        refine ⟨i + 1, Nat.succ_lt_succ hi, ?_, ?_⟩
        · intro j hj
          match j with
          | 0 => simpa [hloc] using And.intro h0 h1
          | k + 1 =>
            have := hmiss k (Nat.lt_of_succ_lt_succ hj)
            rwa [probe_shift] at this
        · rwa [probe_shift] at hrest

lemma deleteLoop_none (st : MappingState) (p : Nat)
    (h : ∀ loc, (st.slotAt loc).1 ≠ p) :
    ∀ (n : Nat) (loc : Nat), deleteMappingLoop st p n loc = st := by
  intro n
  induction n with
  | zero => intro loc; rfl
  | succ m ih =>
    intro loc
    simp only [deleteMappingLoop, if_neg (h loc)]
    exact ih _

lemma deleteLoop_cases (st : MappingState) (p : Nat) :
    ∀ (n : Nat) (loc : Nat),
      deleteMappingLoop st p n loc = st ∨
      ∃ idx, (st.slotAt idx).1 = p ∧
        deleteMappingLoop st p n loc =
          { st with slots := st.slots.set idx (EMPTY_MAPPING, (st.slotAt idx).2),
                    numMappings := st.numMappings - 1 } := by
  intro n
  induction n with
  | zero => intro loc; exact Or.inl rfl
  | succ m ih =>
    intro loc
    by_cases h0 : (st.slotAt loc).1 = p
    · exact Or.inr ⟨loc, h0, by simp [deleteMappingLoop, if_pos h0]⟩
    · simpa only [deleteMappingLoop, if_neg h0] using ih ((loc + 7) % st.maxMappings)

lemma slotAt_set_self {st : MappingState} {idx : Nat} {v : Nat × Nat}
    (h : idx < st.slots.length) :
    MappingState.slotAt { st with slots := st.slots.set idx v } idx = v := by
  simp [MappingState.slotAt, List.getD, List.getElem?_set_eq_of_lt _ h]

lemma slotAt_set_ne {st : MappingState} {idx j : Nat} {v : Nat × Nat}
    (h : idx ≠ j) :
    MappingState.slotAt { st with slots := st.slots.set idx v } j = st.slotAt j := by
  simp [MappingState.slotAt, List.getD, List.getElem?_set_ne h]

lemma slotAt_mem {st : MappingState} {loc : Nat} (h : loc < st.slots.length) :
    st.slotAt loc ∈ st.slots := by
  have : st.slotAt loc = st.slots.get ⟨loc, h⟩ := by
    simp [MappingState.slotAt, List.getD, List.getElem?_eq_getElem h]
  rw [this]
  exact List.get_mem _ _ _

/-- After a successful `vmtreeAddMapping st p c`, resolving `p` through
the table yields `c`: the probe of `vmtreeGetMappingIndex` walks the
same slot sequence and stops at the slot the add wrote. -/
lemma addMapping_get (st : MappingState) (p c : Nat)
    (hwf : MappingWF st) (hp : p ≠ EMPTY_MAPPING) :
    ∀ st', vmtreeAddMapping st p c = some st' → vmtreeGetMapping st' p = c := by
  intro st' hadd
  obtain ⟨hlen, hM, hnum⟩ := hwf
  have hloc : p % st.maxMappings % st.maxMappings = p % st.maxMappings :=
    Nat.mod_mod_of_dvd _ dvd_rfl
  obtain ⟨i, hi, hmiss, hslots, hmax, htries, hnumcase⟩ :=
    addLoop_some st p c _ _ hloc st' hadd
  set idx := (p % st.maxMappings + 7 * i) % st.maxMappings with hidx
  have hidxlt : idx < st.slots.length := by
    rw [hlen]; exact Nat.mod_lt _ hM
  -- the written slot reads back as (p, c)
  have hself : st'.slotAt idx = (p, c) := by
    have : st' = { st' with slots := st.slots.set idx (p, c) } := by
      cases st'; simp_all
    rw [this]
    show MappingState.slotAt { st with slots := st.slots.set idx (p, c) } idx = _
    exact slotAt_set_self hidxlt
  -- numMappings of st' is nonzero
  have hnum' : st'.numMappings ≠ 0 := by
    rcases hnumcase with ⟨hpp, he⟩ | ⟨_, he⟩
    · rw [he, hnum]
      intro hzero
      have hmemf : st.slotAt idx ∈ st.slots.filter fun s => s.1 ≠ EMPTY_MAPPING :=
        List.mem_filter.2 ⟨slotAt_mem hidxlt, by simp [hpp, hp]⟩
      rw [List.length_eq_zero] at hzero
      rw [hzero] at hmemf
      simp at hmemf
    · omega
  -- earlier probed slots of st' still miss p
  have hmiss' : ∀ j < i,
      (st'.slotAt ((p % st.maxMappings + 7 * j) % st.maxMappings)).1 ≠ p := by
    intro j hj
    have hne : idx ≠ (p % st.maxMappings + 7 * j) % st.maxMappings := by
      intro heq
      rcases hnumcase with ⟨hpp, _⟩ | ⟨hpp, _⟩
      · exact (hmiss j hj).1 (heq ▸ hpp)
      · exact (hmiss j hj).2 (heq ▸ hpp)
    have hrepr : st' = { st' with slots := st.slots.set idx (p, c) } := by
      cases st'; simp_all
    rw [hrepr]
    show (MappingState.slotAt { st with slots := st.slots.set idx (p, c) } _).1 ≠ p
    rw [slotAt_set_ne hne]
    exact (hmiss j hj).1
  -- run the get probe on st'
  have hgetloop : ∀ (k r : Nat), r + k = i →
      getMappingIndexLoop st' p (max st.maxTries 1 - r)
        ((p % st.maxMappings + 7 * r) % st.maxMappings) = some idx := by
    intro k
    induction k with
    | zero =>
      intro r hr
      have hri : r = i := by omega
      subst hri
      have hfuel : max st.maxTries 1 - r = (max st.maxTries 1 - r - 1) + 1 := by omega
      rw [hfuel]
      simp only [getMappingIndexLoop]
      have hc : (st'.slotAt ((p % st.maxMappings + 7 * r) % st.maxMappings)).1 = p := by
        rw [← hidx, hself]
      rw [if_pos hc, ← hidx]
    | succ k ih =>
      intro r hr
      have hfuel : max st.maxTries 1 - r = (max st.maxTries 1 - (r + 1)) + 1 := by omega
      rw [hfuel]
      simp only [getMappingIndexLoop]
      rw [if_neg (hmiss' r (by omega))]
      have hstep : ((p % st.maxMappings + 7 * r) % st.maxMappings + 7) % st'.maxMappings
          = (p % st.maxMappings + 7 * (r + 1)) % st.maxMappings := by
        rw [hmax, Nat.mod_add_mod]
        ring_nf
      rw [hstep]
      exact ih (r + 1) (by omega)
  have hget : vmtreeGetMappingIndex st' p = some idx := by
    unfold vmtreeGetMappingIndex
    rw [if_neg hnum', htries, hmax]
    have h0 := hgetloop i 0 (by omega)
    simp only [Nat.mul_zero, Nat.add_zero, Nat.sub_zero, hloc] at h0
    exact h0
  unfold vmtreeGetMapping
  rw [hget]
  show (st'.slotAt idx).2 = c
  rw [hself]

lemma slotAt_ne_of_forall_mem {st : MappingState} {p : Nat}
    (hp : p ≠ EMPTY_MAPPING) (h : ∀ s ∈ st.slots, s.1 ≠ p) :
    ∀ loc, (st.slotAt loc).1 ≠ p := by
  intro loc
  by_cases hloc : loc < st.slots.length
  · exact h _ (slotAt_mem hloc)
  · rw [slotAt_default (Nat.le_of_not_lt hloc)]
    exact fun he => hp he.symm

/-- `vmtreeDeleteMapping` of a `prevPage` that appears in no slot leaves
the table unchanged (and, being total, "returns ok"). -/
lemma deleteMapping_absent (st : MappingState) (p : Nat)
    (hp : p ≠ EMPTY_MAPPING) (h : ∀ s ∈ st.slots, s.1 ≠ p) :
    vmtreeDeleteMapping st p = st := by
  unfold vmtreeDeleteMapping
  split
  · rfl
  · exact deleteLoop_none st p (slotAt_ne_of_forall_mem hp h) _ _

/-- `vmtreeDeleteMapping` is idempotent when the table holds `p` in at
most one slot. -/
lemma deleteMapping_idem (st : MappingState) (p : Nat)
    (hp : p ≠ EMPTY_MAPPING) (hone : AtMostOnePrev st p) :
    vmtreeDeleteMapping (vmtreeDeleteMapping st p) p = vmtreeDeleteMapping st p := by
  by_cases hn : st.numMappings = 0
  · have h1 : vmtreeDeleteMapping st p = st := by
      rw [vmtreeDeleteMapping, if_pos hn]
    rw [h1]
    exact h1
  · have hdel : vmtreeDeleteMapping st p =
        deleteMappingLoop st p st.maxTries (p % st.maxMappings) := by
      rw [vmtreeDeleteMapping, if_neg hn]
    rcases deleteLoop_cases st p st.maxTries (p % st.maxMappings) with hcase | ⟨idx, hpp, hcase⟩
    · rw [hdel, hcase]
      exact hdel.trans hcase
    · set st' := { st with
        slots := st.slots.set idx (EMPTY_MAPPING, (st.slotAt idx).2),
        numMappings := st.numMappings - 1 } with hst'
      rw [hdel, hcase]
      have hidxlt : idx < st.slots.length := by
        by_contra hge
        rw [slotAt_default (Nat.le_of_not_lt hge)] at hpp
        exact hp hpp.symm
      have hnone : ∀ loc, (st'.slotAt loc).1 ≠ p := by
        intro loc
        by_cases heq : idx = loc
        · subst heq
          rw [show st'.slotAt idx =
              MappingState.slotAt { st with
                slots := st.slots.set idx (EMPTY_MAPPING, (st.slotAt idx).2) } idx from rfl]
          rw [slotAt_set_self hidxlt]
          exact fun he => hp he.symm
        · rw [show st'.slotAt loc =
              MappingState.slotAt { st with
                slots := st.slots.set idx (EMPTY_MAPPING, (st.slotAt idx).2) } loc from rfl]
          rw [slotAt_set_ne heq]
          intro hploc
          exact heq (hone idx loc hpp hploc)
      unfold vmtreeDeleteMapping
      split
      · rfl
      · exact deleteLoop_none st' p hnone _ _

/-! ### Claim C4 -/

/-- C4 (amended): mapping-table contract of
`vmtreeGetMapping`/`vmtreeAddMapping`/`vmtreeDeleteMapping`.
`get(prev)` probes at most `maxTries` slots starting at
`prev mod maxMappings` with stride 7, returning the stored `curr` of the
first probed slot naming `prev` on a hit and `prev` unchanged on a miss;
`add(prev, curr)` walks the same probe sequence and acts on the first
slot that either already holds `prev` (update in place) or is empty
(insert) — whichever comes first, so a deletion that emptied an earlier
probed slot makes `add` insert a duplicate rather than update the later
entry — and returns full exactly when all `maxTries` probed slots hold
other mappings; after a successful `add(p,c)`, `get(p) = c`;
`remove(prev)` always returns ok, removing an absent `prev` leaves the
table unchanged, and `remove` is idempotent on tables that hold `prev`
at most once. -/
theorem C4_mapping_table_contract (st : MappingState) (p c : Nat)
    (hwf : MappingWF st) (hp : p ≠ EMPTY_MAPPING) (htries : 1 ≤ st.maxTries) :
    ((∀ loc ∈ probeLocs st p st.maxTries, (st.slotAt loc).1 ≠ p) →
        vmtreeGetMapping st p = p)
    ∧ (∀ idx, vmtreeGetMappingIndex st p = some idx →
        (st.slotAt idx).1 = p ∧ idx ∈ probeLocs st p st.maxTries ∧
          vmtreeGetMapping st p = (st.slotAt idx).2)
    ∧ (vmtreeAddMapping st p c = none ↔
        ∀ loc ∈ probeLocs st p st.maxTries,
          (st.slotAt loc).1 ≠ p ∧ (st.slotAt loc).1 ≠ EMPTY_MAPPING)
    ∧ (∀ st', vmtreeAddMapping st p c = some st' → vmtreeGetMapping st' p = c)
    ∧ ((∀ s ∈ st.slots, s.1 ≠ p) → vmtreeDeleteMapping st p = st)
    ∧ (AtMostOnePrev st p →
        vmtreeDeleteMapping (vmtreeDeleteMapping st p) p = vmtreeDeleteMapping st p) := by
  have hmaxeq : max st.maxTries 1 = st.maxTries := Nat.max_eq_left htries
  have hloc0 : p % st.maxMappings % st.maxMappings = p % st.maxMappings :=
    Nat.mod_mod_of_dvd _ dvd_rfl
  refine ⟨?_, ?_, ?_, addMapping_get st p c hwf hp,
    deleteMapping_absent st p hp, deleteMapping_idem st p hp⟩
  · intro hmiss
    have hnone : vmtreeGetMappingIndex st p = none := by
      unfold vmtreeGetMappingIndex
      split
      · rfl
      · rw [hmaxeq]
        exact getLoop_none st p st.maxTries _ hloc0 fun i hi =>
          hmiss _ (mem_probeLocs.2 ⟨i, hi, rfl⟩)
    unfold vmtreeGetMapping
    rw [hnone]
  · intro idx hidx
    have hsome : getMappingIndexLoop st p (max st.maxTries 1)
        (p % st.maxMappings) = some idx := by
      by_cases hz : st.numMappings = 0
      · rw [vmtreeGetMappingIndex, if_pos hz] at hidx
        exact absurd hidx (by simp)
      · rwa [vmtreeGetMappingIndex, if_neg hz] at hidx
    obtain ⟨hpp, i, hi, hieq⟩ := getLoop_some st p _ _ hloc0 idx hsome
    refine ⟨hpp, mem_probeLocs.2 ⟨i, by omega, hieq⟩, ?_⟩
    unfold vmtreeGetMapping
    rw [hidx]
  · unfold vmtreeAddMapping
    rw [hmaxeq, addLoop_none_iff st p c st.maxTries _ hloc0]
    constructor
    · intro h loc hmem
      obtain ⟨i, hi, hieq⟩ := mem_probeLocs.1 hmem
      exact hieq ▸ h i hi
    · intro h i hi
      exact h _ (mem_probeLocs.2 ⟨i, hi, rfl⟩)

/-- C4 counterexample table: an empty 8-slot mapping table with
`maxTries = 2`, exactly as `vmtreeInit` builds it (every `prevPage` set
to `EMPTY_MAPPING`). -/
def mtC4 : MappingState :=
  { slots := List.replicate 8 (EMPTY_MAPPING, 0), maxMappings := 8,
    maxTries := 2, numMappings := 0 }

/-- Table after `add(8,1); add(0,5); remove(8)`: slot 0 (probe position
of both 8 and 0) is empty again, slot 7 holds the mapping `0 → 5`. -/
def mtC4mid : MappingState :=
  vmtreeDeleteMapping
    ((vmtreeAddMapping ((vmtreeAddMapping mtC4 8 1).getD mtC4) 0 5).getD mtC4) 8

/-- Table after the subsequent `add(0,9)`. -/
def mtC4after : MappingState := (vmtreeAddMapping mtC4mid 0 9).getD mtC4mid

/-- C4 is falsified as stated: in `mtC4mid` the prev page 0 is already
present (slot 7 holds `0 → 5`), yet `vmtreeAddMapping 0 9` does not
update that entry in place — it inserts a second entry for 0 at slot 0,
leaving two slots naming prev 0. -/
theorem C4_counterexample :
    (mtC4mid.slotAt 7) = (0, 5)
    ∧ vmtreeAddMapping mtC4mid 0 9 = some mtC4after
    ∧ mtC4after.slotAt 7 = (0, 5)
    ∧ mtC4after.slotAt 0 = (0, 9)
    ∧ mtC4after.slots.countP (fun s => s.1 = 0) = 2 := by decide

/-- A concrete well-formed table for exercising `C4_mapping_table_contract`:
two slots, slot 1 holds `5 → 9`. -/
def mtC4w : MappingState :=
  { slots := [(EMPTY_MAPPING, 0), (5, 9)], maxMappings := 2,
    maxTries := 1, numMappings := 1 }

/-- Witness for `C4_mapping_table_contract` at the concrete table
`mtC4w` with `p = 5`, `c = 7`. -/
theorem C4_witness :
    MappingWF mtC4w ∧ 5 ≠ EMPTY_MAPPING ∧ 1 ≤ mtC4w.maxTries ∧
      vmtreeGetMapping mtC4w 5 = (mtC4w.slotAt 1).2 :=
  ⟨⟨by decide, by decide, by decide⟩, by decide, by decide,
    ((C4_mapping_table_contract mtC4w 5 7 ⟨by decide, by decide, by decide⟩
      (by decide) (by decide)).2.1 1 (by decide)).2.2⟩

/-! ## Leaf binary search (`vmtreeSearchNode`, sorted layouts)

The leaf branch of `vmtreeSearchNode`: binary search over the `count`
stored keys with `int16_t first = 0, last = count - 1`, comparing
`compareKey(mkey, key)` (i.e. `uint32` comparison), and — in the
`range` case — returning `middle` recomputed at loop exit, or `-1` when
`last == -1`.  All divisions the C code reaches are on non-negative
values, where C truncation and Lean's integer division agree.  The loop
is modelled with explicit fuel (the wrapper passes `count + 1`, which is
more than the interval-halving loop can consume); fuel exhaustion yields
the sentinel `-2`, which the correctness lemma shows is never
returned. -/

def searchLeafLoop (keys : List Nat) (key : Nat) (range : Bool) :
    Nat → Int → Int → Int
  | 0, _, _ => -2
  | fuel + 1, first, last =>
    if first ≤ last then
      let middle := (first + last) / 2
      let mkey := keys.getD middle.toNat 0
      if mkey < key then searchLeafLoop keys key range fuel (middle + 1) last
      else if mkey = key then middle
      else searchLeafLoop keys key range fuel first (middle - 1)
    else
      if range then (if last = -1 then -1 else (first + last) / 2)
      else -1

/-- The leaf branch of `vmtreeSearchNode` on a sorted page whose stored
keys are `keys` (`count = keys.length`). -/
def vmtreeSearchNodeLeaf (keys : List Nat) (key : Nat) (range : Bool) : Int :=
  searchLeafLoop keys key range (keys.length + 1) 0 ((keys.length : Int) - 1)

lemma sorted_le_countP {keys : List Nat} {key : Nat}
    (hs : keys.Sorted (· < ·)) :
    ∀ i (h : i < keys.length),
      (keys.get ⟨i, h⟩ ≤ key ↔ i < keys.countP (fun k => decide (k ≤ key))) := by
  induction keys with
  | nil => intro i h; exact absurd h (by simp)
  | cons a tl ih =>
    have ha : ∀ b ∈ tl, a < b := List.rel_of_sorted_cons hs
    have hs' : tl.Sorted (· < ·) := List.Sorted.of_cons hs
    intro i h
    rw [List.countP_cons]
    by_cases hak : a ≤ key
    · have hd : decide (a ≤ key) = true := decide_eq_true hak
      rw [hd, if_pos rfl]
      match i with
      | 0 => exact iff_of_true hak (Nat.succ_pos _)
      | j + 1 =>
        have hj : j < tl.length := Nat.lt_of_succ_lt_succ h
        simp only [List.get_cons_succ]
        rw [ih hs' j hj]
        omega
    · have hd : decide (a ≤ key) = false := decide_eq_false hak
      have hzero : tl.countP (fun k => decide (k ≤ key)) = 0 := by
        rw [List.countP_eq_zero]
        intro b hb
        simp only [decide_eq_true_eq]
        have := ha b hb
        omega
      rw [hd, if_neg Bool.false_ne_true, hzero]
      match i with
      | 0 => exact iff_of_false hak (by omega)
      | j + 1 =>
        have hj : j < tl.length := Nat.lt_of_succ_lt_succ h
        simp only [List.get_cons_succ]
        refine iff_of_false ?_ (by omega)
        have h5 := ha _ (tl.get_mem j hj)
        omega

lemma sorted_get_lt {keys : List Nat} (hs : keys.Sorted (· < ·))
    {i j : Nat} (hi : i < keys.length) (hj : j < keys.length) (hij : i < j) :
    keys.get ⟨i, hi⟩ < keys.get ⟨j, hj⟩ :=
  hs.rel_get_of_lt hij

lemma searchLeafLoop_range_correct (keys : List Nat) (key : Nat)
    (hs : keys.Sorted (· < ·)) :
    ∀ (fuel : Nat) (first last : Int),
      0 ≤ first → first ≤ last + 1 → last < (keys.length : Int) →
      (∀ i : Nat, (i : Int) < first →
        ∀ h : i < keys.length, keys.get ⟨i, h⟩ < key) →
      (∀ j : Nat, last < (j : Int) →
        ∀ h : j < keys.length, key < keys.get ⟨j, h⟩) →
      (last + 1 - first).toNat < fuel →
      searchLeafLoop keys key true fuel first last =
        (keys.countP (fun k => decide (k ≤ key)) : Int) - 1 := by
  intro fuel
  induction fuel with
  | zero => intro first last _ _ _ _ _ hf; omega
  | succ n ih =>
    intro first last h0 h1 h2 hlow hhigh hfuel
    set C := keys.countP (fun k => decide (k ≤ key)) with hC
    have hCle : C ≤ keys.length := List.countP_le_length _
    by_cases hcond : first ≤ last
    · -- loop body
      have hm0 : 0 ≤ (first + last) / 2 := by omega
      have hmf : first ≤ (first + last) / 2 := by omega
      have hml : (first + last) / 2 ≤ last := by omega
      have hmlt : ((first + last) / 2).toNat < keys.length := by omega
      have hgetD : keys.getD ((first + last) / 2).toNat 0 =
          keys.get ⟨((first + last) / 2).toNat, hmlt⟩ := by
        rw [List.getD_eq_getElem _ _ hmlt]
        simp
      simp only [searchLeafLoop, if_pos hcond]
      by_cases hlt : keys.getD ((first + last) / 2).toNat 0 < key
      · rw [if_pos hlt]
        refine ih ((first + last) / 2 + 1) last (by omega) (by omega) h2 ?_ hhigh (by omega)
        intro i hi h
        rcases Nat.lt_or_ge i (((first + last) / 2).toNat) with hi2 | hi2
        · calc keys.get ⟨i, h⟩ < keys.get ⟨((first + last) / 2).toNat, hmlt⟩ :=
                sorted_get_lt hs h hmlt hi2
            _ < key := by rw [← hgetD]; exact hlt
        · have : i = ((first + last) / 2).toNat := by omega
          subst this
          rw [← hgetD]
          exact hlt
      · rw [if_neg hlt]
        by_cases heq : keys.getD ((first + last) / 2).toNat 0 = key
        · rw [if_pos heq]
          -- exact hit: the matched index is countP - 1
          have hmem : ((first + last) / 2).toNat < C := by
            rw [hC, ← sorted_le_countP hs _ hmlt, ← hgetD, heq]
          have hub : C ≤ ((first + last) / 2).toNat + 1 := by
            by_contra hgt
            push_neg at hgt
            have hlt2 : ((first + last) / 2).toNat + 1 < keys.length := by omega
            have : keys.get ⟨((first + last) / 2).toNat + 1, hlt2⟩ ≤ key := by
              rw [sorted_le_countP hs _ hlt2]; omega
            have : key < keys.get ⟨((first + last) / 2).toNat + 1, hlt2⟩ := by
              calc key = keys.get ⟨((first + last) / 2).toNat, hmlt⟩ := by
                    rw [← hgetD, heq]
                _ < _ := sorted_get_lt hs hmlt hlt2 (Nat.lt_succ_self _)
            omega
          omega
        · rw [if_neg heq]
          have hgt : key < keys.get ⟨((first + last) / 2).toNat, hmlt⟩ := by
            rw [← hgetD]; omega
          refine ih first ((first + last) / 2 - 1) h0 (by omega) (by omega) hlow ?_ (by omega)
          intro j hj h
          rcases Nat.lt_or_ge (((first + last) / 2).toNat) j with hj2 | hj2
          · calc key < keys.get ⟨((first + last) / 2).toNat, hmlt⟩ := hgt
              _ < keys.get ⟨j, h⟩ := sorted_get_lt hs hmlt h hj2
          · have : j = ((first + last) / 2).toNat := by omega
            subst this
            exact hgt
    · -- loop exit: first = last + 1
      have hfl : first = last + 1 := by omega
      have hCfirst : (C : Int) = first := by
        rcases lt_trichotomy (C : Int) first with hlt | heq | hgt
        · -- C < first: keys.get C would be < key yet countP says it is not ≤ key
          exfalso
          have hClt : C < keys.length := by omega
          have h3 := hlow C hlt hClt
          have h4 : ¬ keys.get ⟨C, hClt⟩ ≤ key := by
            rw [sorted_le_countP hs _ hClt]; omega
          omega
        · exact heq
        · -- first < C: keys.get first ≤ key yet it lies beyond last
          exfalso
          have hflt : first.toNat < keys.length := by omega
          have h3 : keys.get ⟨first.toNat, hflt⟩ ≤ key := by
            rw [sorted_le_countP hs _ hflt]; omega
          have h4 := hhigh first.toNat (by omega) hflt
          omega
      simp only [searchLeafLoop, if_neg hcond, eq_self_iff_true, if_true]
      by_cases hneg : last = -1
      · rw [if_pos hneg]
        omega
      · rw [if_neg hneg]
        omega

/-! ### Claim C8 -/

/-- C8 (amended): on a sorted leaf page, `vmtreeSearchNode` with
`range = 1` returns the index of the greatest stored key that is `≤`
the search key when one exists (equivalently, the number of stored keys
`≤ key`, minus one), and returns `-1` both when the page is empty and
when the search key precedes every stored key — it is not clamped
to 0. -/
theorem C8_leaf_range_search (keys : List Nat) (key : Nat)
    (hs : keys.Sorted (· < ·)) :
    vmtreeSearchNodeLeaf keys key true =
      (keys.countP (fun k => decide (k ≤ key)) : Int) - 1 := by
  unfold vmtreeSearchNodeLeaf
  refine searchLeafLoop_range_correct keys key hs _ 0 ((keys.length : Int) - 1)
    le_rfl (by omega) (by omega) ?_ ?_ (by omega)
  · intro i hi h; omega
  · intro j hj h; omega

/-- C8 counterexample to the claim as stated: on the non-empty sorted
leaf `[10, 20, 30]`, searching key 5 returns `-1`, not the clamped
index 0, even though `count ≠ 0`. -/
theorem C8_counterexample :
    vmtreeSearchNodeLeaf [10, 20, 30] 5 true = -1 ∧ ([10, 20, 30] : List Nat) ≠ [] := by
  constructor
  · rfl
  · simp

/-- Witness for `C8_leaf_range_search`: on the sorted leaf `[10, 20, 30]`
with key 25, the search returns index 1 (key 20, the predecessor). -/
theorem C8_witness :
    ([10, 20, 30] : List Nat).Sorted (· < ·) ∧
      vmtreeSearchNodeLeaf [10, 20, 30] 25 true = 1 := by
  constructor
  · decide
  · have h := C8_leaf_range_search [10, 20, 30] 25 (by decide)
    rw [h]
    rfl

/-! ## Overwrite-mode (NOR) pages

An overwrite-mode node stores up to `maxRecordsPerPage` records in fixed
slots; two bitmaps track per-slot state: `bm1` (the "count" bitmap,
bit = 1 ⇔ slot free, 0 ⇔ occupied) and `bm2` (bit = 1 ⇔ record valid).
A slot is modelled as `(freeBit, validBit, record)`; the parallel key
and data arrays of the C layout are fused into one record per slot
(`memcpy`s always move key and data with the same index pattern).
The `isRoot`/`isInterior` flag bits and the 4-byte `prev` header field
become explicit fields.  `initBufferPage` fills a fresh frame with
`INT32_MAX` words, so a fresh slot reads as free = 1, valid = 1 with key
bytes `0x7FFFFFFF` (for the 4-byte aligned key/data sizes used
throughout); `MAX_KEY_FILL` is that value. -/

/-- Key bytes of a freshly initialised (all `INT32_MAX`) buffer word. -/
def MAX_KEY_FILL : Nat := 2 ^ 31 - 1

structure NorRecord where
  key : Nat
  data : Nat
  deriving Repr, DecidableEq

/-- `(bm1 free bit, bm2 valid bit, record)` for one slot. -/
abbrev NorSlot := Bool × Bool × NorRecord

structure NorPage where
  isRoot : Bool
  isInterior : Bool
  /-- `VMTREE_GET_PREV` header field -/
  prevField : Nat
  slots : List NorSlot
  deriving Repr, DecidableEq

/-- Phase 1 of `vmtreeSortBlockNorOverwrite`: walk the slots in order,
stop at the first free slot (`bitarrGet(bm1, c) == 1` → `break`), keep
records whose valid bit is set, compacting them to the front.  The
output is the list of surviving records (slots `0..count-1` after the
copy loop). -/
def norCompact : List NorSlot → List NorRecord
  | [] => []
  | (free, valid, r) :: rest =>
    if free then []
    else if valid then r :: norCompact rest
    else norCompact rest

/-- One step of the insertion sort of `vmtreeSortBlockNorOverwrite`:
insert `r` into the sorted prefix, shifting while
`compareKey(tempKey, key[c2]) < 0`, i.e. placing `r` after every record
whose key is `≤ r.key`. -/
def norInsertRec (r : NorRecord) : List NorRecord → List NorRecord
  | [] => [r]
  | x :: xs => if r.key < x.key then r :: x :: xs else x :: norInsertRec r xs

/-- Phase 2 of `vmtreeSortBlockNorOverwrite`: insertion sort of the
compacted prefix (`for c = 1 .. count-1`, insert record `c` into the
sorted records `0..c-1`). -/
def norInsertionSort (l : List NorRecord) : List NorRecord :=
  l.foldl (fun acc r => norInsertRec r acc) []

/-- Overwrite the records of the leading slots with `recs`, leaving all
bitmap bits (and any slots beyond `recs.length`) unchanged — the C sort
writes only the key/data arrays, never `bm1`/`bm2`. -/
def setRecords : List NorSlot → List NorRecord → List NorSlot
  | [], _ => []
  | s :: ss, [] => s :: ss
  | (f, v, _) :: ss, r :: rs => (f, v, r) :: setRecords ss rs

/-- `vmtreeSortBlockNorOverwrite`: returns the count of surviving
records and the page with slots `0..count-1` holding those records in
ascending key order.  (The C function returns `count` and mutates the
page buffer in place; positions `≥ count` keep their original records
because the compaction only ever copies downwards.) -/
def vmtreeSortBlockNorOverwrite (page : NorPage) : Nat × NorPage :=
  let survivors := norCompact page.slots
  (survivors.length,
    { page with slots := setRecords page.slots (norInsertionSort survivors) })

lemma norCompact_spec : ∀ slots : List NorSlot,
    norCompact slots =
      ((slots.takeWhile fun s => !s.1).filter fun s => s.2.1).map fun s => s.2.2 := by
  intro slots
  induction slots with
  | nil => rfl
  | cons s rest ih =>
    obtain ⟨free, valid, r⟩ := s
    by_cases hf : free
    · subst hf
      simp [norCompact, List.takeWhile]
    · have hf' : free = false := by simpa using hf
      subst hf'
      by_cases hv : valid
      · subst hv
        simpa [norCompact, List.takeWhile] using ih
      · have hv' : valid = false := by simpa using hv
        subst hv'
        simpa [norCompact, List.takeWhile] using ih

lemma norCompact_length_le : ∀ slots : List NorSlot,
    (norCompact slots).length ≤ slots.length := by
  intro slots
  rw [norCompact_spec]
  calc (((slots.takeWhile fun s => !s.1).filter fun s => s.2.1).map fun s => s.2.2).length
      = ((slots.takeWhile fun s => !s.1).filter fun s => s.2.1).length := by
        rw [List.length_map]
    _ ≤ (slots.takeWhile fun s => !s.1).length := List.length_filter_le _ _
    _ ≤ slots.length := (slots.takeWhile_prefix _).length_le

/-- When every slot after the occupied prefix is free (occupancy is
prefix-contiguous), the phase-1 `break` loses nothing: the survivor
count is the number of occupied-and-valid slots of the whole page. -/
lemma norCompact_count_of_prefix : ∀ slots : List NorSlot,
    (∀ s ∈ slots.dropWhile (fun s => !s.1), s.1 = true) →
    (norCompact slots).length = slots.countP fun s => !s.1 && s.2.1 := by
  intro slots
  induction slots with
  | nil => intro _; rfl
  | cons s rest ih =>
    obtain ⟨free, valid, r⟩ := s
    intro hpre
    by_cases hf : free
    · subst hf
      -- first slot free: everything is free, both sides are 0
      have hall : ∀ s ∈ ((true, valid, r) : NorSlot) :: rest, s.1 = true := by
        simpa [List.dropWhile] using hpre
      have : rest.countP (fun s => !s.1 && s.2.1) = 0 := by
        rw [List.countP_eq_zero]
        intro a ha
        have := hall a (List.mem_cons_of_mem _ ha)
        simp [this]
      simp [norCompact, List.countP_cons, this]
    · have hf' : free = false := by simpa using hf
      subst hf'
      have hpre' : ∀ s ∈ rest.dropWhile (fun s => !s.1), s.1 = true := by
        simpa [List.dropWhile] using hpre
      by_cases hv : valid
      · subst hv
        rw [show norCompact ((false, true, r) :: rest) = r :: norCompact rest from rfl,
          List.countP_cons]
        simp only [List.length_cons]
        rw [ih hpre']
        simp
      · have hv' : valid = false := by simpa using hv
        subst hv'
        rw [show norCompact ((false, false, r) :: rest) = norCompact rest from rfl,
          List.countP_cons]
        rw [ih hpre']
        simp

lemma norInsertRec_perm (r : NorRecord) :
    ∀ l : List NorRecord, (norInsertRec r l).Perm (r :: l) := by
  intro l
  induction l with
  | nil => rfl
  | cons x xs ih =>
    by_cases h : r.key < x.key
    · simp [norInsertRec, if_pos h]
    · rw [norInsertRec, if_neg h]
      exact (ih.cons x).trans (List.Perm.swap _ _ _)

lemma norInsertRec_sorted (r : NorRecord) :
    ∀ l : List NorRecord, l.Pairwise (fun a b => a.key ≤ b.key) →
      (norInsertRec r l).Pairwise (fun a b => a.key ≤ b.key) := by
  intro l
  induction l with
  | nil => intro _; simp [norInsertRec]
  | cons x xs ih =>
    intro h
    rw [List.pairwise_cons] at h
    obtain ⟨hx, hxs⟩ := h
    by_cases hlt : r.key < x.key
    · rw [norInsertRec, if_pos hlt]
      refine List.Pairwise.cons ?_ (List.Pairwise.cons hx hxs)
      intro b hb
      rcases List.mem_cons.1 hb with hbx | hbxs
      · subst hbx; omega
      · have := hx b hbxs; omega
    · rw [norInsertRec, if_neg hlt]
      refine List.Pairwise.cons ?_ (ih hxs)
      intro b hb
      have hb' : b ∈ r :: xs := (norInsertRec_perm r xs).subset hb
      rcases List.mem_cons.1 hb' with hbr | hbxs
      · subst hbr; omega
      · exact hx b hbxs

lemma norSortAux_perm :
    ∀ (l acc : List NorRecord),
      (l.foldl (fun acc r => norInsertRec r acc) acc).Perm (acc ++ l) := by
  intro l
  induction l with
  | nil => intro acc; simp
  | cons r tl ih =>
    intro acc
    refine (ih (norInsertRec r acc)).trans ?_
    refine ((norInsertRec_perm r acc).append_right tl).trans ?_
    exact List.perm_middle.symm

lemma norSortAux_sorted :
    ∀ (l acc : List NorRecord), acc.Pairwise (fun a b => a.key ≤ b.key) →
      (l.foldl (fun acc r => norInsertRec r acc) acc).Pairwise
        (fun a b => a.key ≤ b.key) := by
  intro l
  induction l with
  | nil => intro acc h; simpa
  | cons r tl ih =>
    intro acc h
    exact ih _ (norInsertRec_sorted r acc h)

lemma norInsertionSort_perm (l : List NorRecord) :
    (norInsertionSort l).Perm l := by
  simpa [norInsertionSort] using norSortAux_perm l []

lemma norInsertionSort_sorted (l : List NorRecord) :
    (norInsertionSort l).Pairwise (fun a b => a.key ≤ b.key) :=
  norSortAux_sorted l [] (by simp)

lemma setRecords_bits : ∀ (slots : List NorSlot) (recs : List NorRecord),
    (setRecords slots recs).map (fun s => (s.1, s.2.1)) =
      slots.map fun s => (s.1, s.2.1) := by
  intro slots
  induction slots with
  | nil => intro recs; rfl
  | cons s ss ih =>
    intro recs
    obtain ⟨f, v, r0⟩ := s
    match recs with
    | [] => rfl
    | r :: rs => simpa [setRecords] using ih rs

lemma setRecords_take : ∀ (slots : List NorSlot) (recs : List NorRecord),
    recs.length ≤ slots.length →
    ((setRecords slots recs).map fun s => s.2.2).take recs.length = recs := by
  intro slots
  induction slots with
  | nil =>
    intro recs h
    match recs with
    | [] => rfl
  | cons s ss ih =>
    intro recs h
    obtain ⟨f, v, r0⟩ := s
    match recs with
    | [] => rfl
    | r :: rs =>
      simp only [setRecords, List.map_cons, List.length_cons, List.take_succ_cons]
      rw [ih rs (by simpa using h)]

/-! ### Claim C7 -/

/-- C7 (amended): `vmtreeSortBlockNorOverwrite` returns the number `n`
of valid slots in the maximal occupied prefix of the page — which
equals the number of occupied-and-valid slots whenever occupancy is
prefix-contiguous, as the put path maintains — and on return slots
`0..n-1` hold exactly the surviving records (invalid ones dropped) in
ascending key order.  The occupancy/validity bitmaps are NOT rewritten
by the sort itself: both bit vectors are returned unchanged, and it is
the caller's split code (`vmtreeSetCountBitsLeaf`) that later rewrites
them for each split half. -/
theorem C7_sort_block (page : NorPage) :
    (vmtreeSortBlockNorOverwrite page).1 =
      ((page.slots.takeWhile fun s => !s.1).filter fun s => s.2.1).length
    ∧ ((∀ s ∈ page.slots.dropWhile (fun s => !s.1), s.1 = true) →
        (vmtreeSortBlockNorOverwrite page).1 =
          page.slots.countP fun s => !s.1 && s.2.1)
    ∧ (((vmtreeSortBlockNorOverwrite page).2.slots.map fun s => s.2.2).take
          (vmtreeSortBlockNorOverwrite page).1).Perm (norCompact page.slots)
    ∧ (((vmtreeSortBlockNorOverwrite page).2.slots.map fun s => s.2.2).take
          (vmtreeSortBlockNorOverwrite page).1).Pairwise
        (fun a b => a.key ≤ b.key)
    ∧ (vmtreeSortBlockNorOverwrite page).2.slots.map (fun s => (s.1, s.2.1)) =
        page.slots.map (fun s => (s.1, s.2.1))
    ∧ (vmtreeSortBlockNorOverwrite page).2.isRoot = page.isRoot
    ∧ (vmtreeSortBlockNorOverwrite page).2.isInterior = page.isInterior
    ∧ (vmtreeSortBlockNorOverwrite page).2.prevField = page.prevField := by
  have hlen : (norInsertionSort (norCompact page.slots)).length =
      (norCompact page.slots).length :=
    (norInsertionSort_perm _).length_eq
  have htake :
      ((vmtreeSortBlockNorOverwrite page).2.slots.map fun s => s.2.2).take
          (vmtreeSortBlockNorOverwrite page).1 =
        norInsertionSort (norCompact page.slots) := by
    show ((setRecords page.slots (norInsertionSort (norCompact page.slots))).map
        fun s => s.2.2).take (norCompact page.slots).length = _
    rw [← hlen]
    exact setRecords_take _ _ (by rw [hlen]; exact norCompact_length_le _)
  refine ⟨?_, ?_, ?_, ?_, ?_, rfl, rfl, rfl⟩
  · show (norCompact page.slots).length = _
    rw [norCompact_spec, List.length_map]
  · intro hpre
    exact norCompact_count_of_prefix page.slots hpre
  · rw [htake]
    exact norInsertionSort_perm _
  · rw [htake]
    exact norInsertionSort_sorted _
  · exact setRecords_bits _ _

/-- C7 counterexample page: occupied slots 0–2 (slot 1 invalidated),
slot 3 free.  Records: keys 20, 10 (invalid), 5. -/
def pgC7 : NorPage :=
  { isRoot := false, isInterior := false, prevField := PREV_ID_CONSTANT,
    slots := [(false, true, ⟨20, 1⟩), (false, false, ⟨10, 2⟩),
              (false, true, ⟨5, 3⟩), (true, true, ⟨MAX_KEY_FILL, 0⟩)] }

/-- C7 is falsified as stated: on `pgC7` the sort returns `n = 2` and
orders the two survivors (keys 5, 20) into slots 0–1, but the bitmaps
are not rewritten — slot 2 (index `≥ n`) is still marked occupied and
valid, so the bitmaps do not mark exactly the `n` surviving slots. -/
theorem C7_counterexample :
    (vmtreeSortBlockNorOverwrite pgC7).1 = 2
    ∧ (((vmtreeSortBlockNorOverwrite pgC7).2.slots.map fun s => s.2.2).take 2).map
          NorRecord.key = [5, 20]
    ∧ ((vmtreeSortBlockNorOverwrite pgC7).2.slots.getD 2
          (true, true, ⟨0, 0⟩)).1 = false
    ∧ ((vmtreeSortBlockNorOverwrite pgC7).2.slots.getD 2
          (true, true, ⟨0, 0⟩)).2.1 = true := by decide

/-- Witness for `C7_sort_block` at the concrete page `pgC7` (its
occupancy is prefix-contiguous, so the inner implication fires). -/
theorem C7_witness :
    (∀ s ∈ pgC7.slots.dropWhile (fun s => !s.1), s.1 = true) ∧
      (vmtreeSortBlockNorOverwrite pgC7).1 =
        pgC7.slots.countP fun s => !s.1 && s.2.1 :=
  ⟨by decide, (C7_sort_block pgC7).2.1 (by decide)⟩

/-! ## Overwrite-mode leaf search and `vmtreeGet` on a one-level tree

`vmtreeSearchNodeOverwrite`'s leaf branch scans every slot; on an exact
match of an occupied, valid slot it returns the slot index, and when
the scan finds no match it falls through to `return 0` — not `-1`,
although the function's own doc comment promises "Returns -1 if key is
not found".  `vmtreeGet` then treats any result `!= -1` as a hit. -/

def norLeafSearchLoop (key : Nat) : List NorSlot → Nat → Option Nat
  | [], _ => none
  | (free, valid, r) :: rest, c =>
    if free = false ∧ valid = true ∧ r.key = key then some c
    else norLeafSearchLoop key rest (c + 1)

/-- Leaf branch of `vmtreeSearchNodeOverwrite` (the fall-through of the
scan loop is the literal `return 0`). -/
def vmtreeSearchNodeOverwriteLeaf (page : NorPage) (key : Nat) : Nat :=
  match norLeafSearchLoop key page.slots 0 with
  | some c => c
  | none => 0

/-- `vmtreeGet` specialised to a one-level IN_PAGE_OVERWRITE tree (the
root is the leaf, so `state->levels == 1` makes the descent loop
vacuous).  The `int32_t` search result is assigned to the `uint32_t`
`nextId` and compared against `-1` (i.e. `2^32 - 1` after conversion);
data is copied from the matched slot whenever the comparison passes. -/
def vmtreeGetNorLeaf (page : NorPage) (key : Nat) : Option Nat :=
  let nextId := vmtreeSearchNodeOverwriteLeaf page key
  if nextId ≠ 2 ^ 32 - 1 then
    some ((page.slots.getD nextId (true, true, ⟨0, 0⟩)).2.2.data)
  else none

/-- Exact (`range = 0`) leaf search never claims a hit for a key that
is not stored: it can only return a non-`-1` value through the
`compare == 0` branch.  (This is the sorted-mode half of claim C3: in
the sorted layouts, `vmtreeGet` of an absent key does report
not-found.) -/
lemma searchLeafExact_not_found (keys : List Nat) (key : Nat)
    (hk : key ∉ keys) :
    vmtreeSearchNodeLeaf keys key false = -1 := by
  have hloop : ∀ (fuel : Nat) (first last : Int),
      0 ≤ first → last < (keys.length : Int) →
      (last + 1 - first).toNat < fuel →
      searchLeafLoop keys key false fuel first last = -1 := by
    intro fuel
    induction fuel with
    | zero => intro first last _ _ hf; omega
    | succ n ih =>
      intro first last h0 h2 hfuel
      by_cases hcond : first ≤ last
      · have hm0 : 0 ≤ (first + last) / 2 := by omega
        have hmf : first ≤ (first + last) / 2 := by omega
        have hml : (first + last) / 2 ≤ last := by omega
        have hmlt : ((first + last) / 2).toNat < keys.length := by omega
        have hne : keys.getD ((first + last) / 2).toNat 0 ≠ key := by
          intro heq
          refine hk ?_
          rw [List.getD_eq_getElem _ _ hmlt] at heq
          rw [← heq]
          exact List.getElem_mem hmlt
        simp only [searchLeafLoop, if_pos hcond]
        by_cases hlt : keys.getD ((first + last) / 2).toNat 0 < key
        · rw [if_pos hlt]
          exact ih _ _ (by omega) h2 (by omega)
        · rw [if_neg hlt, if_neg hne]
          exact ih _ _ h0 (by omega) (by omega)
      · simp only [searchLeafLoop, if_neg hcond]
        rfl
  exact hloop _ 0 _ le_rfl (by omega) (by omega)

/-! ### Claim C3 -/

/-- C3 failing input: a one-level IN_PAGE_OVERWRITE tree holding the
single record `(5, 555)` (remaining slots fresh/free). -/
def pgC3 : NorPage :=
  { isRoot := true, isInterior := false, prevField := PREV_ID_CONSTANT,
    slots := [(false, true, ⟨5, 555⟩),
              (true, true, ⟨MAX_KEY_FILL, MAX_KEY_FILL⟩),
              (true, true, ⟨MAX_KEY_FILL, MAX_KEY_FILL⟩)] }

/-- C3 evaluated at the failing input (code bug): key 7 was never
inserted — no occupied valid slot of `pgC3` holds it — yet `vmtreeGet`
in IN_PAGE_OVERWRITE mode returns ok and copies slot 0's data (key 5's
555), because the overwrite leaf search falls through to `return 0` on
a miss, contradicting its own doc comment ("Returns -1 if key is not
found") and the not-found behaviour the tests assert. -/
theorem C3_overwrite_get_absent_key :
    (∀ s ∈ pgC3.slots, s.1 = false → s.2.1 = true → s.2.2.key ≠ 7)
    ∧ vmtreeGetNorLeaf pgC3 7 = some 555 := by decide

/-! ## `vmtreeIsValid` (buffer callback) -/

/-- `dbbufferIsFree`: bit `pageNum` of the buffer's free-page bit
vector (1 = free / erased and available). -/
def dbbufferIsFree (freePages : List Bool) (pageNum : Nat) : Bool :=
  freePages.getD pageNum false

/-- `vmtreeIsValid`: `0` = valid/reachable (save on erase), `1` =
remapped (mapping exists, contents not needed), `-1` = unreachable.
The C code checks the free bit first: a non-free page is reported
reachable without consulting the mapping table; only a free page is
classified by whether a mapping resolves it elsewhere. -/
def vmtreeIsValid (freePages : List Bool) (mt : MappingState) (pageNum : Nat) : Int :=
  if dbbufferIsFree freePages pageNum = false then 0
  else if vmtreeGetMapping mt pageNum ≠ pageNum then 1 else -1

/-! ### Claim C6 -/

/-- C6 (amended): `vmtreeIsValid` returns reachable (0) for every page
NOT marked free in the buffer's free-page bitmap, regardless of any
mapping; for a page marked free it returns remapped (1) exactly when
the mapping table resolves that page number to a different page — i.e.
the first probed slot naming `pageNum` as a `prev` carries a different
`curr` — and unreachable (−1) otherwise. -/
theorem C6_is_valid_classification (freePages : List Bool)
    (mt : MappingState) (pageNum : Nat) :
    (dbbufferIsFree freePages pageNum = false →
      vmtreeIsValid freePages mt pageNum = 0)
    ∧ (dbbufferIsFree freePages pageNum = true →
        (vmtreeIsValid freePages mt pageNum = 1 ↔
          ∃ idx, vmtreeGetMappingIndex mt pageNum = some idx ∧
            (mt.slotAt idx).2 ≠ pageNum))
    ∧ (dbbufferIsFree freePages pageNum = true →
        (vmtreeIsValid freePages mt pageNum = -1 ↔
          vmtreeGetMapping mt pageNum = pageNum)) := by
  refine ⟨?_, ?_, ?_⟩
  · intro hfree
    rw [vmtreeIsValid, if_pos hfree]
  · intro hfree
    rw [vmtreeIsValid, if_neg (by simp [hfree])]
    by_cases hm : vmtreeGetMapping mt pageNum ≠ pageNum
    · rw [if_pos hm]
      refine iff_of_true rfl ?_
      rcases heq : vmtreeGetMappingIndex mt pageNum with _ | idx
      · exfalso
        refine hm ?_
        rw [vmtreeGetMapping, heq]
      · refine ⟨idx, rfl, ?_⟩
        rw [vmtreeGetMapping, heq] at hm
        exact hm
    · rw [if_neg hm]
      refine iff_of_false (by omega) ?_
      rintro ⟨idx, heq, hne⟩
      rw [not_not] at hm
      rw [vmtreeGetMapping, heq] at hm
      exact hne hm
  · intro hfree
    rw [vmtreeIsValid, if_neg (by simp [hfree])]
    by_cases hm : vmtreeGetMapping mt pageNum ≠ pageNum
    · rw [if_pos hm]
      exact iff_of_false (by omega) hm
    · rw [if_neg hm]
      rw [not_not] at hm
      exact iff_of_true rfl hm

/-- C6 counterexample data: page 0 is marked free while the 1-slot
mapping table names page 0 as a `prev` (mapping `0 → 5`). -/
def fpC6 : List Bool := [true]

def mtC6 : MappingState :=
  { slots := [(0, 5)], maxMappings := 1, maxTries := 1, numMappings := 1 }

/-- C6 is falsified as stated, in both directions of its first two
clauses: page 0 is marked free AND a mapping entry names it as `prev`,
yet `vmtreeIsValid` reports remapped (1), not unreachable (−1) — the
claim's "unreachable if the page is marked free" clause loses; and a
page that is NOT free while a mapping names it as `prev` is reported
reachable (0), not remapped. -/
theorem C6_counterexample :
    dbbufferIsFree fpC6 0 = true
    ∧ (mtC6.slotAt 0).1 = 0
    ∧ vmtreeIsValid fpC6 mtC6 0 = 1
    ∧ dbbufferIsFree [false] 0 = false
    ∧ vmtreeIsValid [false] mtC6 0 = 0 := by decide

/-- Witness for `C6_is_valid_classification` at the concrete inputs of
`C6_counterexample` (free page with a live mapping). -/
theorem C6_witness :
    dbbufferIsFree fpC6 0 = true ∧
      (vmtreeIsValid fpC6 mtC6 0 = 1 ↔
        ∃ idx, vmtreeGetMappingIndex mtC6 0 = some idx ∧
          (mtC6.slotAt idx).2 ≠ 0) :=
  ⟨by decide, (C6_is_valid_classification fpC6 mtC6 0).2.1 (by decide)⟩

/-! ## `vmtreeInit`: comparator installation and capacity formulas

`vmtreeInit` (a) unconditionally assigns
`state->compareKey = uint32Compare` — after the configuration was
filled in by the caller — and (b) derives the per-page capacities.
The storage mode `state->parameters` takes one of three values
(`0` = VMTREE/copy-on-write, `OVERWRITE`, `NOR_OVERWRITE`; the numeric
constants live in the missing `vmtree.h` and are modelled as an
enum — only their distinctness matters to the code paths).
Arithmetic notes: the C expressions mix `count_t` (uint16) operands
promoted to `int`; the theorems assume `12 ≤ pageSize` (the only
regime in which the subtraction does not go negative) and
`ceil(x / 8.0)` on a `double` is exact for every representable count,
so it is modelled as `(x + 7) / 8`. -/

inductive VmtreeMode
  | vmtree
  | overwrite
  | norOverwrite
  deriving Repr, DecidableEq

/-- `uint32` value obtained by `memcpy(&i, a, 4)` on a little-endian
platform: the first four key bytes, least significant first. -/
def leUint32OfBytes (a : List Nat) : Nat :=
  a.getD 0 0 % 256 + 256 * (a.getD 1 0 % 256) +
    65536 * (a.getD 2 0 % 256) + 16777216 * (a.getD 3 0 % 256)

/-- `uint32Compare`: decode the first 4 bytes of each argument as a
native-endian `uint32_t` and compare, returning 1 / −1 / 0. -/
def uint32Compare (a b : List Nat) : Int :=
  let i1 := leUint32OfBytes a
  let i2 := leUint32OfBytes b
  if i1 > i2 then 1 else if i1 < i2 then -1 else 0

/-- The slice of `vmtreeState` read and written by `vmtreeInit`'s
comparator and capacity computations. -/
structure VmtreeState where
  parameters : VmtreeMode
  pageSize : Nat
  keySize : Nat
  dataSize : Nat
  recordSize : Nat
  compareKey : List Nat → List Nat → Int
  headerSize : Nat
  interiorHeaderSize : Nat
  maxRecordsPerPage : Nat
  maxInteriorRecordsPerPage : Nat
  bitmapSize : Nat
  interiorBitmapSize : Nat

/-- `vmtreeInit` (the `recordSize`/`compareKey`/capacity part; buffer
initialisation and root creation are separate).  `sizeof(id_t) = 4`. -/
def vmtreeInit (st : VmtreeState) : VmtreeState :=
  let st := { st with recordSize := st.keySize + st.dataSize }
  let st := { st with compareKey := uint32Compare }
  if st.parameters ≠ VmtreeMode.norOverwrite then
    { st with
      headerSize := 10, interiorHeaderSize := 10,
      maxRecordsPerPage := (st.pageSize - 10) / st.recordSize,
      maxInteriorRecordsPerPage := (st.pageSize - 10 - 4) / (st.keySize + 4) }
  else
    let headerSize0 := 12
    let maxRecords := (st.pageSize - headerSize0) * 8 / (st.recordSize * 8 + 2)
    let bitmapSize := (maxRecords + 7) / 8
    let headerSize := 10 + 2 * bitmapSize
    let maxInterior := (st.pageSize - headerSize - 4) * 8 / ((st.keySize + 4) * 8 + 2)
    let interiorBitmapSize := (maxInterior + 7) / 8
    let interiorHeaderSize := 10 + 2 * interiorBitmapSize
    { st with
      headerSize := headerSize, interiorHeaderSize := interiorHeaderSize,
      maxRecordsPerPage := maxRecords, maxInteriorRecordsPerPage := maxInterior,
      bitmapSize := bitmapSize, interiorBitmapSize := interiorBitmapSize }

/-- The overwrite-mode leaf-capacity formula exactly as the spec words
it: `⌊(pageSize − 10) · 8 / (recordSize·8 + 2)⌋`. -/
def specNorOverwriteMaxRecords (pageSize recordSize : Nat) : Nat :=
  (pageSize - 10) * 8 / (recordSize * 8 + 2)

/-! ### Claim C9 -/

/-- C9 (amended): in IN_PAGE_OVERWRITE (`NOR_OVERWRITE`) mode, init
computes the maximum leaf records per page as
`⌊(pageSize − 12) · 8 / (recordSize·8 + 2)⌋` — the 12 is the
pre-bitmap header bound (10 fixed bytes plus one minimum byte per
bitmap), not the 10 the spec states — and `bitmapSize` as
`⌈maxRecordsPerPage / 8⌉` (characterised below as the least byte count
whose 8 bits cover `maxRecordsPerPage` slots); for the sorted modes it
computes `⌊(pageSize − headerSize) / recordSize⌋` with
`headerSize = 10`. -/
theorem C9_capacity_formulas (st : VmtreeState) (h12 : 12 ≤ st.pageSize) :
    (st.parameters ≠ VmtreeMode.norOverwrite →
      (vmtreeInit st).headerSize = 10 ∧
      (vmtreeInit st).maxRecordsPerPage =
        (st.pageSize - 10) / (st.keySize + st.dataSize))
    ∧ (st.parameters = VmtreeMode.norOverwrite →
        (vmtreeInit st).maxRecordsPerPage =
          (st.pageSize - 12) * 8 / ((st.keySize + st.dataSize) * 8 + 2)
        ∧ (vmtreeInit st).maxRecordsPerPage ≤ 8 * (vmtreeInit st).bitmapSize
        ∧ (∀ b : Nat, (vmtreeInit st).maxRecordsPerPage ≤ 8 * b →
            (vmtreeInit st).bitmapSize ≤ b)
        ∧ (vmtreeInit st).headerSize = 10 + 2 * (vmtreeInit st).bitmapSize) := by
  constructor
  · intro hmode
    simp only [vmtreeInit]
    rw [if_pos hmode]
    exact ⟨rfl, rfl⟩
  · intro hmode
    simp only [vmtreeInit, hmode]
    rw [if_neg (by simp)]
    refine ⟨rfl, ?_, ?_, rfl⟩
    · show (st.pageSize - 12) * 8 / ((st.keySize + st.dataSize) * 8 + 2) ≤
        8 * (((st.pageSize - 12) * 8 / ((st.keySize + st.dataSize) * 8 + 2) + 7) / 8)
      omega
    · intro b
      show (st.pageSize - 12) * 8 / ((st.keySize + st.dataSize) * 8 + 2) ≤ 8 * b →
        ((st.pageSize - 12) * 8 / ((st.keySize + st.dataSize) * 8 + 2) + 7) / 8 ≤ b
      omega

/-- C9 counterexample: `pageSize = 140`, `keySize = 4`, `dataSize = 12`
(`recordSize = 16`).  The code computes `(140−12)·8/130 = 7` records
per overwrite page; the spec's formula `(140−10)·8/130` gives 8. -/
def cfgC9 : VmtreeState :=
  { parameters := VmtreeMode.norOverwrite, pageSize := 140, keySize := 4,
    dataSize := 12, recordSize := 0, compareKey := fun _ _ => 0,
    headerSize := 0, interiorHeaderSize := 0, maxRecordsPerPage := 0,
    maxInteriorRecordsPerPage := 0, bitmapSize := 0, interiorBitmapSize := 0 }

/-- C9 is falsified as stated: at `pageSize = 140`, `recordSize = 16`
the claimed formula `⌊(pageSize − 10)·8 / (recordSize·8+2)⌋` yields 8,
but `vmtreeInit` computes 7 (it subtracts the 12-byte provisional
header, not 10). -/
theorem C9_counterexample :
    (vmtreeInit cfgC9).maxRecordsPerPage = 7
    ∧ specNorOverwriteMaxRecords 140 16 = 8 := by
  constructor
  · rfl
  · rfl

/-- The standard test configuration: `pageSize = 512`, `keySize = 4`,
`dataSize = 12`, IN_PAGE_OVERWRITE mode. -/
def cfgC9w : VmtreeState := { cfgC9 with pageSize := 512 }

/-- Witness for `C9_capacity_formulas` at the standard configuration
`pageSize = 512`, `keySize = 4`, `dataSize = 12`: 30 records per
overwrite page, 4 bitmap bytes, 18 header bytes. -/
theorem C9_witness :
    12 ≤ cfgC9w.pageSize
    ∧ (vmtreeInit cfgC9w).maxRecordsPerPage = 30
    ∧ (vmtreeInit cfgC9w).bitmapSize = 4
    ∧ (vmtreeInit cfgC9w).headerSize = 18 := by
  refine ⟨by decide, ?_, rfl, ?_⟩
  · have h := (C9_capacity_formulas cfgC9w (by decide)).2 rfl
    rw [h.1]
    rfl
  · have h := (C9_capacity_formulas cfgC9w (by decide)).2 rfl
    rw [h.2.2.2]
    rfl

lemma uint32Compare_spec (a b : List Nat) :
    uint32Compare a b =
      if leUint32OfBytes b < leUint32OfBytes a then 1
      else if leUint32OfBytes a < leUint32OfBytes b then -1 else 0 := rfl

/-! ### Claim C10 -/

/-- C10 (confirmed): `vmtreeInit` unconditionally installs the built-in
4-byte unsigned-integer comparator, overwriting whatever comparator the
configuration carried, in every storage mode; and `uint32Compare`
orders keys by the `uint32` value of their first 4 bytes (sign of the
result = comparison of the decoded values). -/
theorem C10_comparator_installed (st : VmtreeState) (a b : List Nat) :
    (vmtreeInit st).compareKey = uint32Compare
    ∧ (uint32Compare a b = 1 ↔ leUint32OfBytes b < leUint32OfBytes a)
    ∧ (uint32Compare a b = -1 ↔ leUint32OfBytes a < leUint32OfBytes b)
    ∧ (uint32Compare a b = 0 ↔ leUint32OfBytes a = leUint32OfBytes b) := by
  refine ⟨?_, ?_, ?_, ?_⟩
  · simp only [vmtreeInit]
    by_cases hmode : st.parameters ≠ VmtreeMode.norOverwrite
    · rw [if_pos hmode]
    · rw [if_neg hmode]
  · rw [uint32Compare_spec]
    split_ifs <;> constructor <;> intro hx <;>
      first
        | rfl
        | assumption
        | exact absurd hx (by decide)
        | exact absurd hx (by assumption)
        | omega
  · rw [uint32Compare_spec]
    split_ifs <;> constructor <;> intro hx <;>
      first
        | rfl
        | assumption
        | exact absurd hx (by decide)
        | exact absurd hx (by assumption)
        | omega
  · rw [uint32Compare_spec]
    split_ifs <;> constructor <;> intro hx <;>
      first
        | rfl
        | assumption
        | exact absurd hx (by decide)
        | exact absurd hx (by assumption)
        | omega

/-! ## `vmtreeUpdatePointers`, `vmtreeUpdatePrev`, `vmtreeMovePage`

`vmtreeMovePage(state, prev, curr, buf)` is the buffer's relocation
callback.  For an interior frame it first refreshes the child pointers
(`vmtreeUpdatePointers`, which resolves each pointer through
`savedMapping*`/the mapping table and deletes consumed mappings); if
the moved page is the root it updates `activePath[0]`; otherwise it
derives the prev id (`vmtreeUpdatePrev`) and calls `vmtreeAddMapping`
directly — NOT `vmtreeFixMappings` — and when the add returns full it
only prints "ERROR: Ran out of mapping space." (the source carries
`/* TODO: Handle case when not enough mapping space. */`), dropping the
mapping.  The Bool in the result records whether that error branch was
taken. -/

/-- The slice of `vmtreeState` read and written by `vmtreeMovePage`. -/
structure TreeMapState where
  mt : MappingState
  /-- `activePath[0]` (root location) -/
  activePathRoot : Nat
  savedMappingPrev : Nat
  savedMappingCurr : Nat
  deriving Repr, DecidableEq

/-- A buffer frame as touched by `vmtreeMovePage`: flag byte, `prev`
header field, record count, and the child-pointer array. -/
structure MoveFrame where
  isInterior : Bool
  prevField : Nat
  count : Nat
  pointers : List Nat
  deriving Repr, DecidableEq

/-- Loop of `vmtreeUpdatePointers` over pointer indices
`start..endIdx` (inclusive); `fuel = endIdx + 1 - start` iterations. -/
def updatePointersLoop (sp sc : Nat) :
    Nat → Nat → MappingState → List Nat → Nat → MappingState × List Nat × Nat
  | 0, _, mt, ptrs, num => (mt, ptrs, num)
  | fuel + 1, i, mt, ptrs, num =>
    let childIdx := ptrs.getD i 0
    let newIdx := if childIdx = sp then sc else vmtreeGetMapping mt childIdx
    if newIdx ≠ childIdx then
      updatePointersLoop sp sc fuel (i + 1) (vmtreeDeleteMapping mt childIdx)
        (ptrs.set i newIdx) (num + 1)
    else
      updatePointersLoop sp sc fuel (i + 1) mt ptrs num

/-- `vmtreeUpdatePointers`: refresh pointers `start..endIdx`, deleting
each mapping it applies; returns the new table, pointers and the number
of changed pointers. -/
def vmtreeUpdatePointers (s : TreeMapState) (ptrs : List Nat)
    (start endIdx : Nat) : TreeMapState × List Nat × Nat :=
  let r := updatePointersLoop s.savedMappingPrev s.savedMappingCurr
      (endIdx + 1 - start) start s.mt ptrs 0
  ({ s with mt := r.1 }, r.2.1, r.2.2)

/-- `vmtreeUpdatePrev`: returns the prev id to use and the frame's new
`prev` field (the C code overwrites `VMTREE_SET_PREV(buf, currId)` when
the stored prev is the sentinel or no longer maps to `currId`). -/
def vmtreeUpdatePrev (s : TreeMapState) (bufPrev currId : Nat) : Nat × Nat :=
  if PREV_ID_CONSTANT ≤ bufPrev ∨ vmtreeGetMapping s.mt bufPrev ≠ currId then
    (currId, currId)
  else (bufPrev, bufPrev)

/-- `vmtreeMovePage`.  Result: new tree state, new frame, and whether
the "Ran out of mapping space" error branch was taken (in which case
the mapping is dropped with no recovery). -/
def vmtreeMovePage (s : TreeMapState) (prev curr : Nat) (buf : MoveFrame) :
    TreeMapState × MoveFrame × Bool :=
  let su : TreeMapState × MoveFrame :=
    if buf.isInterior then
      let r := vmtreeUpdatePointers s buf.pointers 0 buf.count
      (r.1, { buf with pointers := r.2.1 })
    else (s, buf)
  let s1 := su.1
  let buf1 := su.2
  if s1.activePathRoot = prev then
    ({ s1 with activePathRoot := curr }, buf1, false)
  else
    let pr := vmtreeUpdatePrev s1 buf1.prevField prev
    let buf2 := { buf1 with prevField := pr.2 }
    match vmtreeAddMapping s1.mt pr.1 curr with
    | some mt2 => ({ s1 with mt := mt2 }, buf2, false)
    | none => (s1, buf2, true)

/-! ### Claim C5 -/

/-- C5 failing input: a full 2-slot mapping table (`maxTries = 1`), a
relocated non-root leaf page `prev = 3`, `curr = 9`. -/
def tsC5 : TreeMapState :=
  { mt := { slots := [(100, 101), (201, 202)], maxMappings := 2,
            maxTries := 1, numMappings := 2 },
    activePathRoot := 50, savedMappingPrev := EMPTY_MAPPING,
    savedMappingCurr := 0 }

def bufC5 : MoveFrame :=
  { isInterior := false, prevField := PREV_ID_CONSTANT, count := 0,
    pointers := [] }

/-- C5 evaluated at the failing input (code bug): relocating non-root
page 3 → 9 with a full mapping table takes the error branch, leaves the
mapping table and the root pointer unchanged, and drops the mapping
(page 3 still resolves to itself) — `vmtreeFixMappings` is never
invoked from `vmtreeMovePage` and no ancestor is rewritten, contrary to
the claim that mapping pressure is always recovered internally. -/
theorem C5_movePage_mapping_pressure_unrecovered :
    (vmtreeMovePage tsC5 3 9 bufC5).2.2 = true
    ∧ (vmtreeMovePage tsC5 3 9 bufC5).1.mt = tsC5.mt
    ∧ (vmtreeMovePage tsC5 3 9 bufC5).1.activePathRoot = tsC5.activePathRoot
    ∧ vmtreeGetMapping (vmtreeMovePage tsC5 3 9 bufC5).1.mt 3 = 3 := by decide

/-! ## Iterator on a one-level tree (`vmtreeInitIterator`, `vmtreeNext`)

`vmtreeInitIterator` descends with `minKey` and stores the leaf range
search result in `it->lastIterRec[l]`.  The local `childNum` holding
that result is declared `id_t` (`uint32_t`), so a `-1` from
`vmtreeSearchNode` is stored as `2^32 - 1` (the iterator struct lives
in the missing `vmtree.h`; with a signed index field the first `next`
would instead read the record at byte offset `headerSize - recordSize`,
before the record area — either way no record is returned correctly).
`vmtreeNext` on a one-level tree: when `lastIterRec ≥ count` the
page-advance loop `for (l = levels-2; l >= 0; l--)` has zero iterations,
leaving `l = -1`, which returns 0 (exhausted); otherwise it yields
record `lastIterRec`, skipping keys `< minKey` and stopping at the
first key `> maxKey`. -/

/-- C `int32_t` → `uint32_t` conversion (two's complement). -/
def uint32OfInt (x : Int) : Nat := (x % (2 ^ 32 : Int)).toNat

/-- `vmtreeInitIterator` on a one-level tree: the stored record index
for the leaf. -/
def vmtreeInitIteratorLeaf (keys : List Nat) (minKey : Nat) : Nat :=
  uint32OfInt (vmtreeSearchNodeLeaf keys minKey true)

/-- One `vmtreeNext` call on a one-level tree: either
`some (record, next index)` (C returns 1) or `none` (C returns 0). -/
def vmtreeNextLeaf (recs : List (Nat × Nat)) (minKey maxKey : Nat) :
    Nat → Nat → Option ((Nat × Nat) × Nat)
  | 0, _ => none
  | fuel + 1, pos =>
    if recs.length ≤ pos then none
    else
      let r := recs.getD pos (0, 0)
      if r.1 < minKey then vmtreeNextLeaf recs minKey maxKey fuel (pos + 1)
      else if maxKey < r.1 then none
      else some (r, pos + 1)

/-- Drain the iterator: repeated `vmtreeNext` until it reports end. -/
def vmtreeDrainLeaf (recs : List (Nat × Nat)) (minKey maxKey : Nat) :
    Nat → Nat → List (Nat × Nat)
  | 0, _ => []
  | fuel + 1, pos =>
    match vmtreeNextLeaf recs minKey maxKey (recs.length + 1) pos with
    | none => []
    | some (r, pos2) => r :: vmtreeDrainLeaf recs minKey maxKey fuel pos2

/-- `initIterator` + drained `next` on a one-level tree. -/
def iterateLeaf (recs : List (Nat × Nat)) (minKey maxKey : Nat) :
    List (Nat × Nat) :=
  vmtreeDrainLeaf recs minKey maxKey (recs.length + 1)
    (vmtreeInitIteratorLeaf (recs.map Prod.fst) minKey)

/-! ### Claim C2 -/

/-- C2 evaluated at the failing input (code bug): a one-level tree
holding the single record `(10, 99)`, iterated with
`minKey = 5, maxKey = 20`.  The leaf range search returns `-1` (key 5
precedes every stored key), `initIterator` stores it as record index
`2^32 - 1`, and draining `next` yields nothing — although the claim
(and the `minKey`-filter in `vmtreeNext` itself) requires the iterator
to yield exactly the records with keys in `[5, 20]`, here `(10, 99)`. -/
theorem C2_iterator_misses_records_below_min_seed :
    vmtreeSearchNodeLeaf [10] 5 true = -1
    ∧ vmtreeInitIteratorLeaf [10] 5 = 2 ^ 32 - 1
    ∧ iterateLeaf [(10, 99)] 5 20 = []
    ∧ [(10, 99)].filter (fun r => decide (5 ≤ r.1) && decide (r.1 ≤ 20)) =
        [(10, 99)] := by decide

/-- For contrast: with `minKey` not below every stored key the same
drain is exact — on records `(10, 99), (20, 88), (30, 77)` with bounds
`[12, 25]` the iterator yields exactly `(20, 88)`. -/
theorem iterateLeaf_exact_within_range :
    iterateLeaf [(10, 99), (20, 88), (30, 77)] 12 25 = [(20, 88)] := by decide

/-! ## Whole-path model of IN_PAGE_OVERWRITE put/get

`vmtreePutNorOverwrite` and `vmtreeGet` for `NOR_OVERWRITE` mode, over
a byte-array storage (`memStorage`) large enough that
`dbbufferEnsureSpace(8)` always succeeds without compaction (no erase
cycle, no wraparound, so the mapping table stays empty and
`vmtreeGetMapping` is the identity — the NOR put path never adds
mappings).  Pages are the `NorPage`s above; interior slots pair each
key with the child pointer stored at the same index of the pointer
array (every write in the interior paths stores a key and its pointer
at the same slot index).  `initBufferPage` fills a fresh frame with
`INT32_MAX` words — its own comment says "Insure all values are 1 in
page" and "NOR_OVERWRITE requires everything initialized to 1", but
`INT32_MAX = 0x7FFFFFFF` is not all ones — so the implicit MAX_KEY
record of interior pages reads as `MAX_KEY_FILL = 2^31 - 1`. -/

def blankNorSlot : NorSlot := (true, true, ⟨MAX_KEY_FILL, MAX_KEY_FILL⟩)

/-- `initBufferPage` for NOR mode: every slot free, valid, with key and
data bytes `0x7FFFFFFF`. -/
def initBufferPageNor (n : Nat) : NorPage :=
  { isRoot := false, isInterior := false, prevField := PREV_ID_CONSTANT,
    slots := List.replicate n blankNorSlot }

/-- Per-tree constants from `vmtreeInit` (`maxRecordsPerPage`,
`maxInteriorRecordsPerPage`). -/
structure NorCfg where
  maxLeaf : Nat
  maxInterior : Nat
  deriving Repr, DecidableEq

/-- Tree + buffer state for the NOR put/get paths: `levels`,
`activePath`, the physical pages, the free-page bitmap and the write
cursor `nextPageWriteId`. -/
structure NorTreeState where
  cfg : NorCfg
  levels : Nat
  activePath : List Nat
  storage : List NorPage
  freePages : List Bool
  nextPageWriteId : Nat
  deriving Repr, DecidableEq

/-- `readPage` (buffer frames are pass-through here: every write below
is persisted before the next read, so the cache is invisible to the
values read). -/
def readPageNor (st : NorTreeState) (p : Nat) : NorPage :=
  st.storage.getD p (initBufferPageNor 0)

/-- `dbbufferNextValidPage`: advance the cursor to the next free page
(the mapping check is vacuous — the table is empty on this path);
pre-wraparound regime, so the scan only moves forward. -/
def dbbufferNextValidPageNor (free : List Bool) : Nat → Nat → Nat
  | 0, i => i
  | fuel + 1, i => if free.getD i false then i else dbbufferNextValidPageNor free fuel (i + 1)

/-- `writePage`: place at the next free physical page, mark it used,
return its id. -/
def writePageNor (st : NorTreeState) (pg : NorPage) : Nat × NorTreeState :=
  let p := dbbufferNextValidPageNor st.freePages st.freePages.length
    (st.nextPageWriteId + 1)
  (p, { st with storage := st.storage.set p pg,
                freePages := st.freePages.set p false,
                nextPageWriteId := p })

/-- `overWritePage`: in-place rewrite at the same physical page. -/
def overWritePageNor (st : NorTreeState) (pg : NorPage) (p : Nat) : NorTreeState :=
  { st with storage := st.storage.set p pg }

/-- `dbbufferSetFree`. -/
def dbbufferSetFreeNor (st : NorTreeState) (p : Nat) : NorTreeState :=
  { st with freePages := st.freePages.set p true }

/-- Interior branch of `vmtreeSearchNodeOverwrite`: scan all valid
occupied slots tracking the least key greater than the search key;
`loc` stays 0 when none qualifies. -/
def norInteriorSearchLoop (key : Nat) :
    List NorSlot → Nat → Option (Nat × Nat) → Option (Nat × Nat)
  | [], _, best => best
  | (free, valid, r) :: rest, c, best =>
    let best2 :=
      if free = false ∧ valid = true ∧ key < r.key then
        match best with
        | none => some (r.key, c)
        | some (mk, loc) => if r.key < mk then some (r.key, c) else some (mk, loc)
      else best
    norInteriorSearchLoop key rest (c + 1) best2

def vmtreeSearchNodeOverwriteInterior (pg : NorPage) (key : Nat) : Nat :=
  match norInteriorSearchLoop key pg.slots 0 none with
  | some (_, loc) => loc
  | none => 0

/-- `getChildPageId` for NOR mode: the pointer at index `childNum`
(no count check in this mode), resolved through the (empty) mapping
table. -/
def getChildPageIdNor (pg : NorPage) (childNum : Nat) : Nat :=
  (pg.slots.getD childNum blankNorSlot).2.2.data

/-- Descent loop of `vmtreeGet`/put: `levels - 1` interior steps. -/
def norDescend (st : NorTreeState) : Nat → Nat → Nat → Nat
  | 0, nextId, _ => nextId
  | l + 1, nextId, key =>
    let buf := readPageNor st nextId
    let childNum := vmtreeSearchNodeOverwriteInterior buf key
    norDescend st l (getChildPageIdNor buf childNum) key

/-- `vmtreeGet` in NOR mode: descend, then the overwrite leaf search
(which falls through to slot 0 on a miss) and the data copy. -/
def vmtreeGetNor (st : NorTreeState) (key : Nat) : Option Nat :=
  let leafId := norDescend st (st.levels - 1) (st.activePath.getD 0 0) key
  let buf := readPageNor st leafId
  let nextId := match norLeafSearchLoop key buf.slots 0 with
    | some c => c
    | none => 0
  if nextId ≠ 2 ^ 32 - 1 then
    some ((buf.slots.getD nextId blankNorSlot).2.2.data)
  else none

/-- The slot-append loop of `vmtreePutNorOverwrite`: write the record
into the first free slot (clearing its `bm1` bit). -/
def norLeafAppend (key data : Nat) : List NorSlot → Option (List NorSlot)
  | [] => none
  | (free, valid, r) :: rest =>
    if free then some ((false, valid, ⟨key, data⟩) :: rest)
    else (norLeafAppend key data rest).map ((free, valid, r) :: ·)

/-- `vmtreeSetCountBitsLeaf` / `vmtreeSetCountBitsInterior`: first
`count` slots occupied and valid, the rest free and valid; records
untouched. -/
def vmtreeSetCountBits (slots : List NorSlot) (count : Nat) : List NorSlot :=
  (slots.zip (List.range slots.length)).map fun si =>
    if si.2 < count then (false, true, si.1.2.2) else (true, true, si.1.2.2)

/-- Record array of a page (`keys[i]`/`values[i]` fused per slot). -/
def norRecsOf (pg : NorPage) : List NorRecord := pg.slots.map (·.2.2)

def norWithRecs (pg : NorPage) (recs : List NorRecord) : NorPage :=
  { pg with slots := setRecords pg.slots recs }

/-- `vmtreeInsertLeaf`: insert into the sorted prefix of length
`count`, shifting the tail of the prefix one slot down (slot `count`
is overwritten by the shift; later slots unchanged). -/
def vmtreeInsertLeaf (recs : List NorRecord) (count : Nat) (r : NorRecord) :
    List NorRecord :=
  norInsertRec r (recs.take count) ++ recs.drop (count + 1)

/-- `vmtreeInsertInteriorNew`: sorted insert of `(key,left)` into the
first `count` entries, updating the next pointer to `right` (the
displaced pointer at the insert position is dropped — it addressed the
child that was just split). -/
def vmtreeInsertInteriorNew (recs : List NorRecord) (count : Nat)
    (key left right : Nat) : List NorRecord :=
  let c := (recs.take count).findIdx fun x => key < x.key
  recs.take c ++ ⟨key, left⟩ :: ⟨(recs.getD c ⟨0, 0⟩).key, right⟩ ::
    ((recs.drop (c + 1)).take (count - c - 1)) ++ recs.drop (count + 1)

/-- Pass 1 of `vmtreeInsertInterior`: find the valid occupied key just
larger than `key` (tracking the minimum such key and its slot `loc`),
breaking at the first free slot; returns the best candidate and the
break position. -/
def norInsertInteriorPass1 (key : Nat) :
    List NorSlot → Nat → Option (Nat × Nat) → Option (Nat × Nat) × Nat
  | [], c, best => (best, c)
  | (free, valid, r) :: rest, c, best =>
    if free = false ∧ valid = true then
      let best2 := if key < r.key ∧
          (match best with
           | none => true
           | some mkloc => decide (r.key < mkloc.1)) = true
        then some (r.key, c) else best
      norInsertInteriorPass1 key rest (c + 1) best2
    else if free then (best, c)
    else norInsertInteriorPass1 key rest (c + 1) best

/-- Scan for the next slot that is free AND valid, from index `c`. -/
def norFindFreeValidFrom (slots : List NorSlot) : Nat → Nat → Option Nat
  | 0, _ => none
  | fuel + 1, c =>
    if c < slots.length then
      let s := slots.getD c blankNorSlot
      if s.1 = true ∧ s.2.1 = true then some c
      else norFindFreeValidFrom slots fuel (c + 1)
    else none

/-- `vmtreeInsertInterior`: place `(key,left)` at the first free valid
slot, `(key-just-larger, right)` at the next, invalidating the slot
that held the just-larger key.  `none` = C's return 0 (no space; the C
code un-frees the first slot again, leaving the page semantically
unchanged, and the caller proceeds to split). -/
def vmtreeInsertInterior (slots : List NorSlot) (key left right : Nat) :
    Option (List NorSlot) :=
  let p1 := norInsertInteriorPass1 key slots 0 none
  let loc := (p1.1.map Prod.snd).getD 0
  match norFindFreeValidFrom slots slots.length p1.2 with
  | none => none
  | some c1 =>
    let slots1 := slots.set c1 (false, (slots.getD c1 blankNorSlot).2.1, ⟨key, left⟩)
    match norFindFreeValidFrom slots1 slots1.length (c1 + 1) with
    | none => none
    | some c2 =>
      let lockey := (slots1.getD loc blankNorSlot).2.2.key
      let slots2 := slots1.set c2
        (false, (slots1.getD c2 blankNorSlot).2.1, ⟨lockey, right⟩)
      let sl := slots2.getD loc blankNorSlot
      some (slots2.set loc (sl.1, false, sl.2.2))

/-- `vmtreeSortInteriorBlockNorOverwrite`: compact the valid occupied
prefix, rewrite the bitmaps (`vmtreeSetCountBitsInterior` — unlike the
leaf sort, the interior sort does set bits), insertion-sort. -/
def vmtreeSortInteriorBlockNorOverwrite (pg : NorPage) : Nat × NorPage :=
  let survivors := norCompact pg.slots
  let count := survivors.length
  let slots1 := vmtreeSetCountBits pg.slots count
  (count, { pg with slots := setRecords slots1 (norInsertionSort survivors) })

/-- The full-leaf split of `vmtreePutNorOverwrite` (compact-sort, free
the old page, split at `mid = count/2`, write both halves); returns
`(left, right, separator key, state)`. -/
def norLeafSplit (st : NorTreeState) (buf0 : NorPage) (nextId : Nat)
    (key data : Nat) : Nat × Nat × Nat × NorTreeState :=
  let r0 := vmtreeSortBlockNorOverwrite buf0
  let count := r0.1
  let buf1 := r0.2
  let mid := count / 2
  let buf2 := { buf1 with prevField := PREV_ID_CONSTANT }
  let st := dbbufferSetFreeNor st nextId
  let recs := norRecsOf buf2
  if key < (recs.getD mid ⟨0, 0⟩).key then
    let buf3 := { buf2 with slots := vmtreeSetCountBits buf2.slots (mid + 1),
                            isRoot := false, isInterior := false }
    let temp := recs.getD mid ⟨0, 0⟩
    let recsL := vmtreeInsertLeaf (norRecsOf buf3) mid ⟨key, data⟩
    let bufL := norWithRecs buf3 recsL
    let wl := writePageNor st bufL
    let left := wl.1
    let st := wl.2
    let fr := norRecsOf bufL
    let recsR := temp :: ((fr.drop (mid + 1)).take (count - mid)) ++
      fr.drop (count - mid + 1)
    let bufR0 := norWithRecs bufL recsR
    let bufR := { bufR0 with slots := vmtreeSetCountBits bufR0.slots (count - mid) }
    let wr := writePageNor st bufR
    (left, wr.1, temp.key, wr.2)
  else
    let buf3 := { buf2 with slots := vmtreeSetCountBits buf2.slots (mid + 1),
                            isRoot := false, isInterior := false }
    let wl := writePageNor st buf3
    let left := wl.1
    let st := wl.2
    let sep := if key < (recs.getD (mid + 1) ⟨0, 0⟩).key then key
               else (recs.getD (mid + 1) ⟨0, 0⟩).key
    let fr := norRecsOf buf3
    let moved := (fr.drop (mid + 1)).take (count - mid - 1)
    let afterMove := moved ++ fr.drop (count - mid - 1)
    let recsR := norInsertRec ⟨key, data⟩ (afterMove.take (count - mid - 1)) ++
      afterMove.drop (count - mid)
    let bufR0 := norWithRecs buf3 recsR
    let bufR := { bufR0 with slots := vmtreeSetCountBits bufR0.slots (count - mid) }
    let wr := writePageNor st bufR
    (left, wr.1, sep, wr.2)

/-- The interior split of `vmtreePutNorOverwrite`'s parent loop
(`count = sortInterior - 1` excludes the trailing MAX_KEY record;
`mid = count/2`; the three sub-branches mirror
`compareKeyMid`/`compareKeyMid2`). -/
def norInteriorSplit (st : NorTreeState) (buf0 : NorPage) (parent : Nat)
    (sep left right : Nat) : Nat × Nat × Nat × NorTreeState :=
  let buf1 := { buf0 with prevField := PREV_ID_CONSTANT }
  let rs := vmtreeSortInteriorBlockNorOverwrite buf1
  let count := rs.1 - 1
  let buf2 := rs.2
  let mid := count / 2
  let st := dbbufferSetFreeNor st parent
  let recs := norRecsOf buf2
  let kmid := (recs.getD mid ⟨0, 0⟩).key
  let kmid2 := (recs.getD (mid + 1) ⟨0, 0⟩).key
  let buf3 := { buf2 with isRoot := false, isInterior := true }
  if sep < kmid then
    let buf4 := { buf3 with slots := vmtreeSetCountBits buf3.slots (mid + 2) }
    let tempKeyAfterMid := (recs.getD (mid + 1) ⟨0, 0⟩).key
    let tempPtr := (recs.getD (mid + 1) ⟨0, 0⟩).data
    let recsL := vmtreeInsertInteriorNew (norRecsOf buf4) (mid + 1) sep left right
    let bufL := norWithRecs buf4 recsL
    let wl := writePageNor st bufL
    let st := wl.2
    let buf5 := { bufL with slots := vmtreeSetCountBits bufL.slots (count - mid) }
    let fr := norRecsOf buf5
    let recsR := NorRecord.mk tempKeyAfterMid tempPtr ::
      ((fr.drop (mid + 2)).take (count - mid - 1)) ++ fr.drop (count - mid)
    let bufR := norWithRecs buf5 recsR
    let wr := writePageNor st bufR
    (wl.1, wr.1, kmid, wr.2)
  else
    let buf4 := { buf3 with slots := vmtreeSetCountBits buf3.slots (mid + 1) }
    let wl := writePageNor st buf4
    let st := wl.2
    if kmid2 ≤ sep then
      let fr := norRecsOf buf4
      let movedR := (fr.drop (mid + 1)).take (count - mid)
      let recsR0 := movedR ++ fr.drop (count - mid)
      let buf5 := norWithRecs buf4 recsR0
      let buf6 := { buf5 with slots := vmtreeSetCountBits buf5.slots (count - mid + 1) }
      let recsR := vmtreeInsertInteriorNew (norRecsOf buf6) (count - mid) sep left right
      let bufR := norWithRecs buf6 recsR
      let wr := writePageNor st bufR
      (wl.1, wr.1, kmid, wr.2)
    else
      let buf6 := { buf4 with slots := vmtreeSetCountBits buf4.slots (count - mid + 1) }
      let fr := norRecsOf buf6
      let shifted := (fr.drop (mid + 1)).take (count - mid)
      let after := (fr.getD 0 ⟨0, 0⟩) :: shifted ++ fr.drop (count - mid + 1)
      let e1 := after.getD 1 ⟨0, 0⟩
      let recsR := NorRecord.mk sep left :: NorRecord.mk e1.key right :: after.drop 2
      let bufR := norWithRecs buf6 recsR
      let wr := writePageNor st bufR
      (wl.1, wr.1, kmid, wr.2)

/-- The upward propagation loop of `vmtreePutNorOverwrite`
(`for l = levels-2 downto 0`): free the parent, try the in-page
interior insert, else split and continue; when the loop runs past the
root, return the surviving `(left, right, sep)` for new-root
creation. -/
def norParentLoop (st : NorTreeState) :
    Nat → Nat → Nat → Nat → NorTreeState × Option (Nat × Nat × Nat)
  | 0, left, right, sep => (st, some (left, right, sep))
  | lfuel + 1, left, right, sep =>
    let l := lfuel
    let parent := st.activePath.getD l 0
    let st1 := dbbufferSetFreeNor st parent
    let buf := readPageNor st1 parent
    match vmtreeInsertInterior buf.slots sep left right with
    | some slots2 =>
      (overWritePageNor st1 { buf with slots := slots2 } parent, none)
    | none =>
      let q := norInteriorSplit st1 buf parent sep left right
      norParentLoop q.2.2.2 lfuel q.1 q.2.1 q.2.2.1

/-- New-root creation: fresh interior page, slots 0 and 1 occupied,
`(sep, left)` at slot 0, `right` paired with the MAX_KEY fill record at
slot 1. -/
def norNewRoot (st : NorTreeState) (left right sep : Nat) : NorTreeState :=
  let pg0 := initBufferPageNor st.cfg.maxInterior
  let slots1 := (pg0.slots.zip (List.range pg0.slots.length)).map fun si =>
    if si.2 = 0 then (false, true, NorRecord.mk sep left)
    else if si.2 = 1 then (false, si.1.2.1, NorRecord.mk si.1.2.2.key right)
    else si.1
  let pg := { pg0 with isRoot := true, isInterior := true,
                       prevField := PREV_ID_CONSTANT, slots := slots1 }
  let w := writePageNor st pg
  { w.2 with activePath := w.2.activePath.set 0 w.1, levels := w.2.levels + 1 }

/-- Put descent recording `activePath[l+1]` per level. -/
def norPutDescend (st : NorTreeState) : Nat → Nat → Nat → NorTreeState × Nat
  | 0, nextId, _ => (st, nextId)
  | lfuel + 1, nextId, key =>
    let buf := readPageNor st nextId
    let childNum := vmtreeSearchNodeOverwriteInterior buf key
    let nid := getChildPageIdNor buf childNum
    let l := st.levels - 1 - (lfuel + 1)
    let st1 := { st with activePath := st.activePath.set (l + 1) nid }
    norPutDescend st1 lfuel nid key

/-- `vmtreePutNorOverwrite` (storage ample, `ensureSpace` trivially
ok): descend, append into a free slot and overwrite in place, or
compact-sort, split, propagate upward, possibly growing a new root. -/
def vmtreePutNorOverwrite (st : NorTreeState) (key data : Nat) : NorTreeState :=
  let d := norPutDescend st (st.levels - 1) (st.activePath.getD 0 0) key
  let st1 := d.1
  let nextId := d.2
  let buf := readPageNor st1 nextId
  match norLeafAppend key data buf.slots with
  | some slots2 => overWritePageNor st1 { buf with slots := slots2 } nextId
  | none =>
    let q := norLeafSplit st1 buf nextId key data
    match norParentLoop q.2.2.2 (q.2.2.2.levels - 1) q.1 q.2.1 q.2.2.1 with
    | (st3, none) => st3
    | (st3, some lrs) => norNewRoot st3 lrs.1 lrs.2.1 lrs.2.2

/-- Initial state after `vmtreeInit`: one empty root leaf written to
storage.  Config `maxLeaf = 5`, `maxInterior = 4` corresponds to
`pageSize = 56, keySize = 4, dataSize = 4` through the C9 formulas;
16 physical pages (ample for the C1 scenario, no wraparound). -/
def norInitState : NorTreeState :=
  let cfg : NorCfg := { maxLeaf := 5, maxInterior := 4 }
  let st0 : NorTreeState :=
    { cfg := cfg, levels := 1, activePath := List.replicate 8 0,
      storage := List.replicate 16 (initBufferPageNor 0),
      freePages := List.replicate 16 true, nextPageWriteId := 0 }
  let root := { initBufferPageNor cfg.maxLeaf with isRoot := true }
  let w := writePageNor st0 root
  { w.2 with activePath := w.2.activePath.set 0 w.1 }

/-! ### Claim C1 -/

/-- C1 failing input: IN_PAGE_OVERWRITE mode, insert keys
`2147483647, 1, 2, 3, 4, 5` (each with data = key); every put returns
ok; the sixth put splits the full leaf and grows a root. -/
def stC1 : NorTreeState :=
  [2147483647, 1, 2, 3, 4, 5].foldl (fun st k => vmtreePutNorOverwrite st k k)
    norInitState

/-- C1 evaluated at the failing input (code bug): after six successful
puts of distinct keys, `get(2147483647)` returns ok with data 1 — key
1's data, not the data 2147483647 that was paired with it — although
the record `(2147483647, 2147483647)` does sit in storage (in the
right split leaf, page 3).  The split placed the key in the right
half, but interior routing finds no stored key greater than
`2147483647`, because the MAX_KEY record of interior pages is the page
fill `0x7FFFFFFF` (`initBufferPage` writes `INT32_MAX` words despite
its own comment "Insure all values are 1 in page"), so the root routes
the lookup to the left leaf.  Keys 1–5 still round-trip. -/
theorem C1_round_trip_lost_key :
    vmtreeGetNor stC1 2147483647 = some 1
    ∧ (1 : Nat) ≠ 2147483647
    ∧ ((readPageNor stC1 3).slots.map fun s => s.2.2).getD 2 ⟨0, 0⟩ =
        NorRecord.mk 2147483647 2147483647
    ∧ (List.range 5).map (fun i => vmtreeGetNor stC1 (i + 1)) =
        (List.range 5).map (fun i => some (i + 1)) := by decide

end VMTree
